import Mathlib

/-!
Verification development for the lox-v1 parser (src/src/parser.rs).

The file shallowly embeds the recursive-descent parser: the token stream is a
`List Token`, the `Peekable<IntoIter<Token>>` iterator becomes explicit list
threading, fallible methods return a `PResult` value, and the process-global
token id counter from crate::token is threaded through the parser state.
Rust loops become recursive helper functions.  Machine recursion is made total
with an explicit fuel argument; a separate theorem shows that the canonical
fuel bound is never exhausted.
-/

set_option maxRecDepth 20000

/-- Modelled from the spec, section 6: the token kinds of crate::token, which is
not under src/.  The source names the payload constructors `Identifier(String)`,
`String(String)` and `Number(f64)`; the IEEE-754 double payload is modelled as a
rational number (the parser never computes with the value, it only carries it). -/
inductive TokenType where
  | LeftParen | RightParen | LeftBrace | RightBrace | Comma | Dot | Minus | Plus
  | Semicolon | Slash | Star
  | Bang | BangEqual | Equal | EqualEqual | Greater | GreaterEqual | Less | LessEqual
  | Identifier (s : String)
  | StringLit (s : String)
  | Number (v : ℚ)
  | And | Class | Else | False | Fun | For | If | Nil | Or | Print
  | Return | Super | This | True | Var | While | Eof
deriving DecidableEq, Repr

/-- Modelled from the spec, section 3: the token value type of crate::token
(kind, lexeme, 1-based line, globally unique `universal_index`). -/
structure Token where
  token_type : TokenType
  lexeme : String
  line : Nat
  universal_index : Nat
deriving DecidableEq, Repr

/-- True for the `TokenType::Identifier(_)` pattern used by the parser. -/
def TokenType.isIdentifier : TokenType → Bool
  | .Identifier _ => true
  | _ => false

/-- True for the literal-token pattern of Parser::primary:
`Number(_) | String(_) | True | False | Nil`. -/
def TokenType.isLiteralValue : TokenType → Bool
  | .Number _ | .StringLit _ | .True | .False | .Nil => true
  | _ => false

/-- Expression AST, from `enum Expr` in src/src/parser.rs. -/
inductive Expr where
  | Literal (t : Token)
  | Variable (t : Token)
  | Assign (name : Token) (value : Expr)
  | Unary (operator : Token) (expr : Expr)
  | Binary (left : Expr) (operator : Token) (right : Expr)
  | Grouping (e : Expr)
  | Logical (left : Expr) (operator : Token) (right : Expr)
  | Call (callee : Expr) (closing_parenthesis : Token) (arguments : List Expr)
  | Get (object : Expr) (name : Token)
  | Set (object : Expr) (name : Token) (value : Expr)
  | This (keyword : Token)
  | Super (keyword : Token) (method : Token)
deriving Repr

mutual
/-- Statement AST, from `enum Stmt` in src/src/parser.rs. -/
inductive Stmt where
  | Expr (e : Expr)
  | Print (e : Expr)
  | Var (name : Token) (initializer : Option Expr)
  | Block (stmts : List Stmt)
  | If (condition : Expr) (then_branch : Stmt) (else_branch : Option Stmt)
  | While (condition : Expr) (body : Stmt)
  | Function (f : FunctionStatement)
  | Return (keyword : Token) (value : Expr)
  | Class (name : Token) (superclass : Option Token) (methods : List FunctionStatement)
deriving Repr
/-- Function declaration payload, from `struct FunctionStatement` in
src/src/parser.rs. -/
inductive FunctionStatement where
  | mk (name : Token) (params : List Token) (body : List Stmt)
deriving Repr
end

/-- Error kinds, from `enum ErrorKind` in src/src/parser.rs. -/
inductive ErrorKind where
  | ExpectedExpression
  | ExpectedLeftParenthesis
  | ExpectedRightParenthesis
  | ExpectedRightBrace
  | ExpectedLeftBrace
  | ExpectedSemicolon
  | ExpectedIdentifier (place : String)
  | InvalidAssignmentTarget
  | ExceededArgumentsLimit
  | ExpectedComma
  | ExpectedDot
deriving DecidableEq, Repr

/-- Parse error, from `struct Error` in src/src/parser.rs. -/
structure Error where
  kind : ErrorKind
  token : Option Token
deriving DecidableEq, Repr

/-- Parser state: the remaining token stream of `struct Parser` plus the
process-global token id counter.  Modelled from the spec, section 2: the
`next_universal_index` counter of crate::token (not under src/) hands out a
fresh monotonically increasing id whenever the parser synthesizes a token. -/
structure Parser where
  tokens : List Token
  next_universal_index : Nat
deriving DecidableEq, Repr

/-- Outcome of running a parser method: success carries the value and the new
state, failure the `Error`.  The extra constructors model exhaustion of the
explicit recursion fuel and a Rust `panic!()`. -/
inductive PResult (α : Type) where
  | ok (a : α) (p : Parser)
  | err (e : Error)
  | outOfFuel
  | panicked

/-- Sequencing of parser outcomes (the `?` operator); fuel exhaustion and
panics propagate like errors. -/
def PResult.bind {α β : Type} : PResult α → (α → Parser → PResult β) → PResult β
  | .ok a p, k => k a p
  | .err e, _ => .err e
  | .outOfFuel, _ => .outOfFuel
  | .panicked, _ => .panicked

namespace Parser

/-- The `expect_token_type!` helper of src/src/parser.rs, already composed with
the `map_err` that attaches the error kind, for the single-constructor
patterns (LeftParen, RightParen, LeftBrace, RightBrace, Semicolon, Dot). -/
def expect_token_type (tt : TokenType) (kind : ErrorKind) (p : Parser) : PResult Token :=
  match p.tokens with
  | t :: rest =>
    if t.token_type = tt then .ok t { p with tokens := rest }
    else .err ⟨kind, some t⟩
  | [] => .err ⟨kind, none⟩

/-- The `expect_token_type!` helper for the `TokenType::Identifier(_)` pattern,
composed with the `map_err` attaching `ExpectedIdentifier { place }`. -/
def expect_identifier (place : String) (p : Parser) : PResult Token :=
  match p.tokens with
  | t :: rest =>
    if t.token_type.isIdentifier then .ok t { p with tokens := rest }
    else .err ⟨.ExpectedIdentifier place, some t⟩
  | [] => .err ⟨.ExpectedIdentifier place, none⟩

/-- The parameter-collecting loop of Parser::function (src/src/parser.rs lines
346 to 389).  It touches no other parser method, so it recurses structurally on
the token list; it returns the collected parameters and the remaining tokens. -/
def params_loop (params : List Token) (ts : List Token) : Except Error (List Token × List Token) :=
  if params.length ≥ 255 then
    .error ⟨.ExceededArgumentsLimit, params.getLast?⟩
  else
    match ts with
    | [] => .error ⟨.ExpectedIdentifier "parameter", none⟩
    | t :: rest =>
      if t.token_type = .RightParen then .ok (params, rest)
      else if t.token_type.isIdentifier then
        match rest with
        | [] => .error ⟨.ExpectedComma, none⟩
        | t2 :: rest2 =>
          if t2.token_type = .Comma then params_loop (params ++ [t]) rest2
          else if t2.token_type = .RightParen then .ok (params ++ [t], rest2)
          else .error ⟨.ExpectedComma, some t2⟩
      else .error ⟨.ExpectedIdentifier "parameter", some t⟩

/-- The desugaring tail of Parser::for_statement (src/src/parser.rs lines 546
to 571, after the comment about desugaring into a while loop).  Note that, as
in the source, the `While` node is only built inside the `if let
Some(initializer)` branch, and the condition (synthesized or not) is dropped
when the initializer is absent.  Returns the statement and the updated global
id counter. -/
def for_desugar (initializer : Option Stmt) (condition : Option Expr)
    (increment : Option Expr) (body : Stmt) (next_universal_index : Nat) :
    Stmt × Nat :=
  let body1 : Stmt :=
    match increment with
    | some increment => Stmt.Block [body, Stmt.Expr increment]
    | none => body
  let cond_idx : Expr × Nat :=
    match condition with
    | some c => (c, next_universal_index)
    | none =>
      (Expr.Literal ⟨TokenType.True, "", 1, next_universal_index⟩,
        next_universal_index + 1)
  let body2 : Stmt :=
    match initializer with
    | some initializer => Stmt.Block [initializer, Stmt.While cond_idx.1 body1]
    | none => body1
  (body2, cond_idx.2)

mutual

/-- Parser::declaration. -/
def declaration : Nat → Parser → PResult Stmt
  | 0, _ => .outOfFuel
  | fuel + 1, p =>
    match p.tokens with
    | t :: rest =>
      if t.token_type = .Fun then function fuel "function" { p with tokens := rest }
      else if t.token_type = .Var then var_declaration fuel { p with tokens := rest }
      else if t.token_type = .Class then class_declaration fuel { p with tokens := rest }
      else statement fuel p
    | [] => statement fuel p

/-- Parser::var_declaration. -/
def var_declaration : Nat → Parser → PResult Stmt
  | 0, _ => .outOfFuel
  | fuel + 1, p =>
    match p.tokens with
    | name :: rest =>
      if name.token_type.isIdentifier then
        match rest with
        | t :: rest2 =>
          if t.token_type = .Equal then
            PResult.bind (expression fuel { p with tokens := rest2 }) fun init p2 =>
              match p2.tokens with
              | t2 :: rest3 =>
                if t2.token_type = .Semicolon then
                  .ok (.Var name (some init)) { p2 with tokens := rest3 }
                else .err ⟨.ExpectedSemicolon, some t2⟩
              | [] => .err ⟨.ExpectedSemicolon, none⟩
          else if t.token_type = .Semicolon then
            .ok (.Var name none) { p with tokens := rest2 }
          else .err ⟨.ExpectedSemicolon, some t⟩
        | [] => .err ⟨.ExpectedSemicolon, none⟩
      else .err ⟨.ExpectedIdentifier "variable", some name⟩
    | [] => .err ⟨.ExpectedIdentifier "variable", none⟩

/-- Parser::class_declaration. -/
def class_declaration : Nat → Parser → PResult Stmt
  | 0, _ => .outOfFuel
  | fuel + 1, p =>
    PResult.bind (expect_identifier "class" p) fun name p1 =>
    PResult.bind
      (match p1.tokens with
       | t :: rest =>
         if t.token_type = .Less then
           PResult.bind (expect_identifier "superclass" { p1 with tokens := rest })
             fun s p2 => .ok (some s) p2
         else .ok none p1
       | [] => .ok (Option.none) p1) fun superclass p2 =>
    PResult.bind (expect_token_type .LeftBrace .ExpectedLeftBrace p2) fun _ p3 =>
    PResult.bind (methods_loop fuel [] p3) fun methods p4 =>
    PResult.bind (expect_token_type .RightBrace .ExpectedRightBrace p4) fun _ p5 =>
    .ok (.Class name superclass methods) p5

/-- The method-collecting loop of Parser::class_declaration (lines 305 to 319).
The wildcard arm of the `match` on the result of `self.function("method")` is
the `panic!()` there. -/
def methods_loop : Nat → List FunctionStatement → Parser → PResult (List FunctionStatement)
  | 0, _, _ => .outOfFuel
  | fuel + 1, methods, p =>
    match p.tokens with
    | t :: _ =>
      if t.token_type = .RightBrace ∨ t.token_type = .Eof then .ok methods p
      else
        PResult.bind (function fuel "method" p) fun s p2 =>
          match s with
          | .Function v => methods_loop fuel (methods ++ [v]) p2
          | _ => .panicked
    | [] => .ok methods p

/-- Parser::function. -/
def function : Nat → String → Parser → PResult Stmt
  | 0, _, _ => .outOfFuel
  | fuel + 1, place, p =>
    PResult.bind (expect_identifier place p) fun name p1 =>
    PResult.bind (expect_token_type .LeftParen .ExpectedLeftParenthesis p1) fun _ p2 =>
    match params_loop [] p2.tokens with
    | .error e => .err e
    | .ok (params, rest) =>
      PResult.bind
        (expect_token_type .LeftBrace .ExpectedLeftBrace
          { p2 with tokens := rest }) fun _ p4 =>
      PResult.bind (block fuel p4) fun body p5 =>
      .ok (.Function ⟨name, params, body⟩) p5

/-- Parser::statement. -/
def statement : Nat → Parser → PResult Stmt
  | 0, _ => .outOfFuel
  | fuel + 1, p =>
    match p.tokens with
    | t :: rest =>
      if t.token_type = .If then if_statement fuel { p with tokens := rest }
      else if t.token_type = .Print then print_statement fuel { p with tokens := rest }
      else if t.token_type = .While then while_statement fuel { p with tokens := rest }
      else if t.token_type = .For then for_statement fuel { p with tokens := rest }
      else if t.token_type = .LeftBrace then
        PResult.bind (block fuel { p with tokens := rest }) fun stmts p2 =>
          .ok (.Block stmts) p2
      else if t.token_type = .Return then return_statement fuel t { p with tokens := rest }
      else expression_statement fuel p
    | [] => expression_statement fuel p

/-- Parser::if_statement. -/
def if_statement : Nat → Parser → PResult Stmt
  | 0, _ => .outOfFuel
  | fuel + 1, p =>
    PResult.bind (expect_token_type .LeftParen .ExpectedLeftParenthesis p) fun _ p1 =>
    PResult.bind (expression fuel p1) fun condition p2 =>
    PResult.bind (expect_token_type .RightParen .ExpectedRightParenthesis p2) fun _ p3 =>
    PResult.bind (statement fuel p3) fun then_branch p4 =>
    match p4.tokens with
    | t :: rest =>
      if t.token_type = .Else then
        PResult.bind (statement fuel { p4 with tokens := rest }) fun else_branch p5 =>
          .ok (.If condition then_branch (some else_branch)) p5
      else .ok (.If condition then_branch none) p4
    | [] => .ok (.If condition then_branch none) p4

/-- Parser::print_statement.  As in the source, a missing or wrong closing
token is reported with `token: None`. -/
def print_statement : Nat → Parser → PResult Stmt
  | 0, _ => .outOfFuel
  | fuel + 1, p =>
    PResult.bind (expression fuel p) fun value p2 =>
    match p2.tokens with
    | t :: rest =>
      if t.token_type = .Semicolon then .ok (.Print value) { p2 with tokens := rest }
      else .err ⟨.ExpectedSemicolon, none⟩
    | [] => .err ⟨.ExpectedSemicolon, none⟩

/-- Parser::while_statement. -/
def while_statement : Nat → Parser → PResult Stmt
  | 0, _ => .outOfFuel
  | fuel + 1, p =>
    PResult.bind (expect_token_type .LeftParen .ExpectedLeftParenthesis p) fun _ p1 =>
    PResult.bind (expression fuel p1) fun condition p2 =>
    PResult.bind (expect_token_type .RightParen .ExpectedRightParenthesis p2) fun _ p3 =>
    PResult.bind (statement fuel p3) fun body p4 =>
    .ok (.While condition body) p4

/-- Parser::for_statement; its desugaring tail is `for_desugar`. -/
def for_statement : Nat → Parser → PResult Stmt
  | 0, _ => .outOfFuel
  | fuel + 1, p =>
    PResult.bind (expect_token_type .LeftParen .ExpectedLeftParenthesis p) fun _ p1 =>
    PResult.bind
      (match p1.tokens with
       | t :: rest =>
         if t.token_type = .Semicolon then .ok none { p1 with tokens := rest }
         else if t.token_type = .Var then
           PResult.bind (var_declaration fuel { p1 with tokens := rest }) fun s p2 =>
             .ok (some s) p2
         else
           PResult.bind (expression_statement fuel p1) fun s p2 => .ok (some s) p2
       | [] =>
         PResult.bind (expression_statement fuel p1) fun s p2 => .ok (some s) p2)
      fun initializer p2 =>
    PResult.bind
      (match p2.tokens with
       | t :: _ =>
         if t.token_type = .Semicolon then .ok none p2
         else PResult.bind (expression fuel p2) fun c p3 => .ok (some c) p3
       | [] => PResult.bind (expression fuel p2) fun c p3 => .ok (some c) p3)
      fun condition p3 =>
    PResult.bind (expect_token_type .Semicolon .ExpectedSemicolon p3) fun _ p4 =>
    PResult.bind
      (match p4.tokens with
       | t :: _ =>
         if t.token_type = .RightParen then .ok none p4
         else PResult.bind (expression fuel p4) fun c p5 => .ok (some c) p5
       | [] => PResult.bind (expression fuel p4) fun c p5 => .ok (some c) p5)
      fun increment p5 =>
    PResult.bind (expect_token_type .RightParen .ExpectedRightParenthesis p5) fun _ p6 =>
    PResult.bind (statement fuel p6) fun body p7 =>
    let r := for_desugar initializer condition increment body p7.next_universal_index
    .ok r.1 { p7 with next_universal_index := r.2 }

/-- Parser::block: the statement-collecting loop followed by the mandatory
closing brace. -/
def block : Nat → Parser → PResult (List Stmt)
  | 0, _ => .outOfFuel
  | fuel + 1, p =>
    PResult.bind (block_loop fuel [] p) fun statements p2 =>
    match p2.tokens with
    | t :: rest =>
      if t.token_type = .RightBrace then .ok statements { p2 with tokens := rest }
      else .err ⟨.ExpectedRightBrace, some t⟩
    | [] => .err ⟨.ExpectedRightBrace, none⟩

/-- The statement-collecting loop of Parser::block (lines 577 to 591). -/
def block_loop : Nat → List Stmt → Parser → PResult (List Stmt)
  | 0, _, _ => .outOfFuel
  | fuel + 1, acc, p =>
    match p.tokens with
    | t :: _ =>
      if t.token_type = .RightBrace then .ok acc p
      else
        PResult.bind (declaration fuel p) fun s p2 =>
          block_loop fuel (acc ++ [s]) p2
    | [] => .ok acc p

/-- Parser::return_statement.  A bare `return;` synthesizes a nil literal
token carrying the keyword lexeme and line and a fresh universal index. -/
def return_statement : Nat → Token → Parser → PResult Stmt
  | 0, _, _ => .outOfFuel
  | fuel + 1, keyword, p =>
    PResult.bind
      (match p.tokens with
       | t :: _ =>
         if t.token_type = .Semicolon then
           .ok (Expr.Literal ⟨TokenType.Nil, keyword.lexeme, keyword.line,
                  p.next_universal_index⟩)
             { p with next_universal_index := p.next_universal_index + 1 }
         else expression fuel p
       | [] => expression fuel p) fun value p2 =>
    PResult.bind (expect_token_type .Semicolon .ExpectedSemicolon p2) fun _ p3 =>
    .ok (.Return keyword value) p3

/-- Parser::expression_statement. -/
def expression_statement : Nat → Parser → PResult Stmt
  | 0, _ => .outOfFuel
  | fuel + 1, p =>
    PResult.bind (expression fuel p) fun expr p2 =>
    match p2.tokens with
    | t :: rest =>
      if t.token_type = .Semicolon then .ok (.Expr expr) { p2 with tokens := rest }
      else .err ⟨.ExpectedSemicolon, none⟩
    | [] => .err ⟨.ExpectedSemicolon, none⟩

/-- Parser::expression. -/
def expression : Nat → Parser → PResult Expr
  | 0, _ => .outOfFuel
  | fuel + 1, p => assignment fuel p

/-- Parser::assignment. -/
def assignment : Nat → Parser → PResult Expr
  | 0, _ => .outOfFuel
  | fuel + 1, p =>
    PResult.bind (or fuel p) fun expr p2 =>
    match p2.tokens with
    | equals :: rest =>
      if equals.token_type = .Equal then
        PResult.bind (assignment fuel { p2 with tokens := rest }) fun value p3 =>
          match expr with
          | .Variable name => .ok (.Assign name value) p3
          | .Get object name => .ok (.Set object name value) p3
          | _ => .err ⟨.InvalidAssignmentTarget, some equals⟩
      else .ok expr p2
    | [] => .ok expr p2

/-- Parser::or. -/
def or : Nat → Parser → PResult Expr
  | 0, _ => .outOfFuel
  | fuel + 1, p =>
    PResult.bind (and fuel p) fun expr p2 => or_loop fuel expr p2

/-- The operator loop of Parser::or. -/
def or_loop : Nat → Expr → Parser → PResult Expr
  | 0, _, _ => .outOfFuel
  | fuel + 1, expr, p =>
    match p.tokens with
    | operator :: rest =>
      if operator.token_type = .Or then
        PResult.bind (and fuel { p with tokens := rest }) fun right p2 =>
          or_loop fuel (.Logical expr operator right) p2
      else .ok expr p
    | [] => .ok expr p

/-- Parser::and. -/
def and : Nat → Parser → PResult Expr
  | 0, _ => .outOfFuel
  | fuel + 1, p =>
    PResult.bind (equality fuel p) fun expr p2 => and_loop fuel expr p2

/-- The operator loop of Parser::and. -/
def and_loop : Nat → Expr → Parser → PResult Expr
  | 0, _, _ => .outOfFuel
  | fuel + 1, expr, p =>
    match p.tokens with
    | operator :: rest =>
      if operator.token_type = .And then
        PResult.bind (equality fuel { p with tokens := rest }) fun right p2 =>
          and_loop fuel (.Logical expr operator right) p2
      else .ok expr p
    | [] => .ok expr p

/-- Parser::equality. -/
def equality : Nat → Parser → PResult Expr
  | 0, _ => .outOfFuel
  | fuel + 1, p =>
    PResult.bind (comparison fuel p) fun expr p2 => equality_loop fuel expr p2

/-- The operator loop of Parser::equality. -/
def equality_loop : Nat → Expr → Parser → PResult Expr
  | 0, _, _ => .outOfFuel
  | fuel + 1, expr, p =>
    match p.tokens with
    | operator :: rest =>
      if operator.token_type = .BangEqual ∨ operator.token_type = .EqualEqual then
        PResult.bind (comparison fuel { p with tokens := rest }) fun right p2 =>
          equality_loop fuel (.Binary expr operator right) p2
      else .ok expr p
    | [] => .ok expr p

/-- Parser::comparison. -/
def comparison : Nat → Parser → PResult Expr
  | 0, _ => .outOfFuel
  | fuel + 1, p =>
    PResult.bind (term fuel p) fun expr p2 => comparison_loop fuel expr p2

/-- The operator loop of Parser::comparison. -/
def comparison_loop : Nat → Expr → Parser → PResult Expr
  | 0, _, _ => .outOfFuel
  | fuel + 1, expr, p =>
    match p.tokens with
    | operator :: rest =>
      if operator.token_type = .Greater ∨ operator.token_type = .GreaterEqual ∨
          operator.token_type = .Less ∨ operator.token_type = .LessEqual then
        PResult.bind (term fuel { p with tokens := rest }) fun right p2 =>
          comparison_loop fuel (.Binary expr operator right) p2
      else .ok expr p
    | [] => .ok expr p

/-- Parser::term. -/
def term : Nat → Parser → PResult Expr
  | 0, _ => .outOfFuel
  | fuel + 1, p =>
    PResult.bind (factor fuel p) fun expr p2 => term_loop fuel expr p2

/-- The operator loop of Parser::term. -/
def term_loop : Nat → Expr → Parser → PResult Expr
  | 0, _, _ => .outOfFuel
  | fuel + 1, expr, p =>
    match p.tokens with
    | operator :: rest =>
      if operator.token_type = .Minus ∨ operator.token_type = .Plus then
        PResult.bind (factor fuel { p with tokens := rest }) fun right p2 =>
          term_loop fuel (.Binary expr operator right) p2
      else .ok expr p
    | [] => .ok expr p

/-- Parser::factor. -/
def factor : Nat → Parser → PResult Expr
  | 0, _ => .outOfFuel
  | fuel + 1, p =>
    PResult.bind (unary fuel p) fun expr p2 => factor_loop fuel expr p2

/-- The operator loop of Parser::factor. -/
def factor_loop : Nat → Expr → Parser → PResult Expr
  | 0, _, _ => .outOfFuel
  | fuel + 1, expr, p =>
    match p.tokens with
    | operator :: rest =>
      if operator.token_type = .Slash ∨ operator.token_type = .Star then
        PResult.bind (unary fuel { p with tokens := rest }) fun right p2 =>
          factor_loop fuel (.Binary expr operator right) p2
      else .ok expr p
    | [] => .ok expr p

/-- Parser::unary. -/
def unary : Nat → Parser → PResult Expr
  | 0, _ => .outOfFuel
  | fuel + 1, p =>
    match p.tokens with
    | t :: rest =>
      if t.token_type = .Bang ∨ t.token_type = .Minus then
        PResult.bind (unary fuel { p with tokens := rest }) fun e p2 =>
          .ok (.Unary t e) p2
      else call fuel p
    | [] => .err ⟨.ExpectedExpression, none⟩

/-- Parser::call. -/
def call : Nat → Parser → PResult Expr
  | 0, _ => .outOfFuel
  | fuel + 1, p =>
    PResult.bind (primary fuel p) fun expr p2 => call_loop fuel expr p2

/-- The postfix loop of Parser::call handling `(args)` and `.name`. -/
def call_loop : Nat → Expr → Parser → PResult Expr
  | 0, _, _ => .outOfFuel
  | fuel + 1, expr, p =>
    match p.tokens with
    | t :: rest =>
      if t.token_type = .LeftParen then
        PResult.bind (finish_call fuel expr { p with tokens := rest }) fun e2 p2 =>
          call_loop fuel e2 p2
      else if t.token_type = .Dot then
        match rest with
        | n :: rest2 =>
          if n.token_type.isIdentifier then
            call_loop fuel (.Get expr n) { p with tokens := rest2 }
          else .err ⟨.ExpectedIdentifier "property name", some n⟩
        | [] => .err ⟨.ExpectedIdentifier "property name", none⟩
      else .ok expr p
    | [] => .ok expr p

/-- Parser::finish_call. -/
def finish_call : Nat → Expr → Parser → PResult Expr
  | 0, _, _ => .outOfFuel
  | fuel + 1, callee, p =>
    PResult.bind
      (match p.tokens with
       | t :: _ =>
         if t.token_type = .RightParen then .ok [] p
         else args_loop fuel [] p
       | [] => args_loop fuel [] p) fun arguments p2 =>
    match p2.tokens with
    | t :: rest =>
      if t.token_type = .RightParen then
        .ok (.Call callee t arguments) { p2 with tokens := rest }
      else .err ⟨.ExpectedRightParenthesis, some t⟩
    | [] => .err ⟨.ExpectedRightParenthesis, none⟩

/-- The argument-collecting loop of Parser::finish_call (lines 875 to 893).
The arity check fires before each argument parse, reporting the peeked token. -/
def args_loop : Nat → List Expr → Parser → PResult (List Expr)
  | 0, _, _ => .outOfFuel
  | fuel + 1, arguments, p =>
    if arguments.length ≥ 255 then
      .err ⟨.ExceededArgumentsLimit, p.tokens.head?⟩
    else
      PResult.bind (expression fuel p) fun arg p2 =>
      match p2.tokens with
      | t :: rest =>
        if t.token_type = .Comma then
          args_loop fuel (arguments ++ [arg]) { p2 with tokens := rest }
        else .ok (arguments ++ [arg]) p2
      | [] => .ok (arguments ++ [arg]) p2

/-- Parser::primary. -/
def primary : Nat → Parser → PResult Expr
  | 0, _ => .outOfFuel
  | fuel + 1, p =>
    match p.tokens with
    | t :: rest =>
      if t.token_type.isIdentifier then .ok (.Variable t) { p with tokens := rest }
      else if t.token_type.isLiteralValue then .ok (.Literal t) { p with tokens := rest }
      else if t.token_type = .This then .ok (.This t) { p with tokens := rest }
      else if t.token_type = .Super then
        match rest with
        | d :: rest2 =>
          if d.token_type = .Dot then
            match rest2 with
            | m :: rest3 =>
              if m.token_type.isIdentifier then
                .ok (.Super t m) { p with tokens := rest3 }
              else .err ⟨.ExpectedIdentifier "super", some m⟩
            | [] => .err ⟨.ExpectedIdentifier "super", none⟩
          else .err ⟨.ExpectedDot, some d⟩
        | [] => .err ⟨.ExpectedDot, none⟩
      else if t.token_type = .LeftParen then
        PResult.bind (expression fuel { p with tokens := rest }) fun e p2 =>
          match p2.tokens with
          | t2 :: rest2 =>
            if t2.token_type = .RightParen then
              .ok (.Grouping e) { p2 with tokens := rest2 }
            else .err ⟨.ExpectedRightParenthesis, some t2⟩
          | [] => .err ⟨.ExpectedRightParenthesis, none⟩
      else .err ⟨.ExpectedExpression, some t⟩
    | [] => .err ⟨.ExpectedExpression, none⟩

/-- The statement-collecting loop of Parser::parse (lines 183 to 192): run
declarations until the lookahead is `Eof` or the stream is exhausted. -/
def parse_loop : Nat → List Stmt → Parser → PResult (List Stmt)
  | 0, _, _ => .outOfFuel
  | fuel + 1, acc, p =>
    match p.tokens with
    | t :: _ =>
      if t.token_type = .Eof then .ok acc p
      else
        PResult.bind (declaration fuel p) fun s p2 =>
          parse_loop fuel (acc ++ [s]) p2
    | [] => .ok acc p

end

/-- Fuel that suffices for any token stream (proved below): seventeen units per
remaining token plus a constant. -/
def parse_fuel (p : Parser) : Nat := 17 * p.tokens.length + 16

/-- Parser::parse, run with the canonical fuel. -/
def parse (p : Parser) : PResult (List Stmt) := parse_loop (parse_fuel p) [] p

end Parser

/-- The `print_ast` function of src/src/parser.rs (lines 994 to 1058), which is
also the Display impl for Expr.  Writing to the formatter is modelled by
returning the accumulated string; the `panic!`, and the `todo!` wildcard arm
covering Call, Get, Set, This and Super, are modelled by `none`.  The number
arm formats the rational stand-in for the f64 payload. -/
def print_ast : Expr → Option String
  | .Literal t =>
    match t.token_type with
    | .Number v => some (toString v)
    | .StringLit v => some v
    | .Identifier v => some v
    | .True => some "true"
    | .False => some "false"
    | .Nil => some "nil"
    | _ => none
  | .Variable t =>
    match t.token_type with
    | .Identifier var_name => some var_name
    | _ => none
  | .Assign name value =>
    match name.token_type with
    | .Identifier n =>
      (print_ast value).map fun s => "(= " ++ n ++ " " ++ s ++ ")"
    | _ => none
  | .Binary left operator right =>
    (print_ast left).bind fun ls =>
    (print_ast right).map fun rs =>
      "(" ++ operator.lexeme ++ " " ++ ls ++ " " ++ rs ++ ")"
  | .Grouping e => (print_ast e).map fun s => "(group " ++ s ++ ")"
  | .Unary operator e =>
    (print_ast e).map fun s => "(" ++ operator.lexeme ++ " " ++ s ++ ")"
  | .Logical left operator right =>
    (print_ast left).bind fun ls =>
    (print_ast right).map fun rs =>
      "(" ++ operator.lexeme ++ " " ++ ls ++ " " ++ rs ++ ")"
  | _ => none

/-- Characterization of the domain of `print_ast`, written from the claim: the
expressions rendered without reaching a `panic!` or `todo!` arm are exactly the
Literal, Variable, Assign, Unary, Binary, Grouping and Logical nodes whose
Literal, Variable and Assign tokens carry a literal or identifier payload of
the expected kind.  Call, Get, Set, This and Super are never rendered. -/
def renderable : Expr → Bool
  | .Literal t =>
    match t.token_type with
    | .Number _ | .StringLit _ | .Identifier _ | .True | .False | .Nil => true
    | _ => false
  | .Variable t => t.token_type.isIdentifier
  | .Assign name value => name.token_type.isIdentifier && renderable value
  | .Binary left _ right => renderable left && renderable right
  | .Grouping e => renderable e
  | .Unary _ e => renderable e
  | .Logical left _ right => renderable left && renderable right
  | .Call _ _ _ => false
  | .Get _ _ => false
  | .Set _ _ _ => false
  | .This _ => false
  | .Super _ _ => false

namespace Lexer

/-- Modelled from the spec, section 4.1: the keyword table of the lexer (the
lexer lives in crate::token, which is not under src/). -/
def keyword_or_identifier (s : String) : TokenType :=
  match s with
  | "and" => .And
  | "class" => .Class
  | "else" => .Else
  | "false" => .False
  | "fun" => .Fun
  | "for" => .For
  | "if" => .If
  | "nil" => .Nil
  | "or" => .Or
  | "print" => .Print
  | "return" => .Return
  | "super" => .Super
  | "this" => .This
  | "true" => .True
  | "var" => .Var
  | "while" => .While
  | _ => .Identifier s

/-- Modelled from the spec, section 4.1: identifier head characters. -/
def is_alpha (c : Char) : Bool := c.isAlpha || c = '_'

/-- Modelled from the spec, section 4.1: identifier continuation characters. -/
def is_alphanumeric (c : Char) : Bool := is_alpha c || c.isDigit

/-- Decimal value of a digit string. -/
def digits_to_nat (cs : List Char) : Nat :=
  cs.foldl (fun a c => 10 * a + (c.toNat - 48)) 0

/-- Modelled from the spec, section 4.1: the body of a double-quoted string
literal (no escapes, may span lines).  Returns the contents, the rest of the
input and the number of embedded newlines, or `none` when unterminated. -/
def scan_string_chars : List Char → Option (List Char × List Char × Nat)
  | [] => none
  | c :: rest =>
    if c = '"' then some ([], rest, 0)
    else
      (scan_string_chars rest).map fun r =>
        (c :: r.1, r.2.1, r.2.2 + if c = '\n' then 1 else 0)

/-- Modelled from the spec, section 4.1: the lexer loop over the source
characters, producing tokens with fresh ids and terminating with an `Eof`
sentinel.  Lexing halts at the first error (the simplest compliant mode).
The fuel argument only makes the recursion structural; every step consumes at
least one character, so `length + 1` units suffice. -/
def scan_tokens_aux : Nat → List Char → Nat → Nat → Except String (List Token)
  | 0, _, _, _ => .error "out of fuel"
  | fuel + 1, cs, line, idx =>
    match cs with
    | [] => .ok [⟨.Eof, "", line, idx⟩]
    | c :: rest =>
      if c = '(' then
        (scan_tokens_aux fuel rest line (idx + 1)).map
          (⟨.LeftParen, "(", line, idx⟩ :: ·)
      else if c = ')' then
        (scan_tokens_aux fuel rest line (idx + 1)).map
          (⟨.RightParen, ")", line, idx⟩ :: ·)
      else if c = '\x7b' then
        (scan_tokens_aux fuel rest line (idx + 1)).map
          (⟨.LeftBrace, "\x7b", line, idx⟩ :: ·)
      else if c = '\x7d' then
        (scan_tokens_aux fuel rest line (idx + 1)).map
          (⟨.RightBrace, "\x7d", line, idx⟩ :: ·)
      else if c = ',' then
        (scan_tokens_aux fuel rest line (idx + 1)).map
          (⟨.Comma, ",", line, idx⟩ :: ·)
      else if c = '.' then
        (scan_tokens_aux fuel rest line (idx + 1)).map
          (⟨.Dot, ".", line, idx⟩ :: ·)
      else if c = ';' then
        (scan_tokens_aux fuel rest line (idx + 1)).map
          (⟨.Semicolon, ";", line, idx⟩ :: ·)
      else if c = '+' then
        (scan_tokens_aux fuel rest line (idx + 1)).map
          (⟨.Plus, "+", line, idx⟩ :: ·)
      else if c = '-' then
        (scan_tokens_aux fuel rest line (idx + 1)).map
          (⟨.Minus, "-", line, idx⟩ :: ·)
      else if c = '*' then
        (scan_tokens_aux fuel rest line (idx + 1)).map
          (⟨.Star, "*", line, idx⟩ :: ·)
      else if c = '/' then
        match rest with
        | '/' :: rest2 =>
          scan_tokens_aux fuel (rest2.dropWhile (· ≠ '\n')) line idx
        | _ =>
          (scan_tokens_aux fuel rest line (idx + 1)).map
            (⟨.Slash, "/", line, idx⟩ :: ·)
      else if c = '!' then
        match rest with
        | '=' :: rest2 =>
          (scan_tokens_aux fuel rest2 line (idx + 1)).map
            (⟨.BangEqual, "!=", line, idx⟩ :: ·)
        | _ =>
          (scan_tokens_aux fuel rest line (idx + 1)).map
            (⟨.Bang, "!", line, idx⟩ :: ·)
      else if c = '=' then
        match rest with
        | '=' :: rest2 =>
          (scan_tokens_aux fuel rest2 line (idx + 1)).map
            (⟨.EqualEqual, "==", line, idx⟩ :: ·)
        | _ =>
          (scan_tokens_aux fuel rest line (idx + 1)).map
            (⟨.Equal, "=", line, idx⟩ :: ·)
      else if c = '<' then
        match rest with
        | '=' :: rest2 =>
          (scan_tokens_aux fuel rest2 line (idx + 1)).map
            (⟨.LessEqual, "<=", line, idx⟩ :: ·)
        | _ =>
          (scan_tokens_aux fuel rest line (idx + 1)).map
            (⟨.Less, "<", line, idx⟩ :: ·)
      else if c = '>' then
        match rest with
        | '=' :: rest2 =>
          (scan_tokens_aux fuel rest2 line (idx + 1)).map
            (⟨.GreaterEqual, ">=", line, idx⟩ :: ·)
        | _ =>
          (scan_tokens_aux fuel rest line (idx + 1)).map
            (⟨.Greater, ">", line, idx⟩ :: ·)
      else if c = ' ' ∨ c = '\t' ∨ c = '\r' then
        scan_tokens_aux fuel rest line idx
      else if c = '\n' then
        scan_tokens_aux fuel rest (line + 1) idx
      else if c = '"' then
        match scan_string_chars rest with
        | none => .error "unterminated string"
        | some r =>
          (scan_tokens_aux fuel r.2.1 (line + r.2.2) (idx + 1)).map
            (⟨.StringLit (String.mk r.1),
              String.mk ('"' :: r.1 ++ ['"']), line, idx⟩ :: ·)
      else if c.isDigit then
        let int_digits := c :: rest.takeWhile Char.isDigit
        let after := rest.dropWhile Char.isDigit
        match after with
        | '.' :: d :: _ =>
          if d.isDigit then
            let frac := (after.tail).takeWhile Char.isDigit
            let remaining := (after.tail).dropWhile Char.isDigit
            let value : ℚ :=
              (digits_to_nat int_digits : ℚ) +
                (digits_to_nat frac : ℚ) / ((10 : ℚ) ^ frac.length)
            (scan_tokens_aux fuel remaining line (idx + 1)).map
              (⟨.Number value, String.mk (int_digits ++ '.' :: frac), line, idx⟩ :: ·)
          else
            (scan_tokens_aux fuel after line (idx + 1)).map
              (⟨.Number ((digits_to_nat int_digits : ℚ)),
                String.mk int_digits, line, idx⟩ :: ·)
        | _ =>
          (scan_tokens_aux fuel after line (idx + 1)).map
            (⟨.Number ((digits_to_nat int_digits : ℚ)),
              String.mk int_digits, line, idx⟩ :: ·)
      else if is_alpha c then
        let word := c :: rest.takeWhile is_alphanumeric
        let remaining := rest.dropWhile is_alphanumeric
        let s := String.mk word
        (scan_tokens_aux fuel remaining line (idx + 1)).map
          (⟨keyword_or_identifier s, s, line, idx⟩ :: ·)
      else .error "unexpected character"

/-- Modelled from the spec, section 4.1: tokenize a source string, starting at
line 1 with fresh token ids from 0. -/
def scan_tokens (source : String) : Except String (List Token) :=
  scan_tokens_aux (source.length + 1) source.toList 1 0

end Lexer

/-- Print an expression with `print_ast` and reparse the printed text as an
expression: `none` when printing (or lexing the printed text) fails, otherwise
the outcome of running Parser::expression on the lexed tokens. -/
def print_reparse (e : Expr) : Option (PResult Expr) :=
  match print_ast e with
  | none => none
  | some str =>
    match Lexer.scan_tokens str with
    | .error _ => none
    | .ok toks => some (Parser.expression (17 * toks.length + 12) ⟨toks, 0⟩)

/-- Token stream of a comma-separated parameter (or one-identifier argument)
list closed by a right parenthesis, as fed to the parameter and argument loops
in the arity-limit theorems. -/
def sep_params : List Token → List Token
  | [] => [⟨.RightParen, ")", 1, 0⟩]
  | [t] => [t, ⟨.RightParen, ")", 1, 0⟩]
  | t :: rest => t :: ⟨.Comma, ",", 1, 0⟩ :: sep_params rest

/-- Progress predicate on parser outcomes: the run neither exhausted its fuel
nor panicked, and on success at least `δ` tokens of the `n` available were
consumed. -/
def PResult.Progress {α : Type} (n δ : Nat) : PResult α → Prop
  | .ok _ p' => p'.tokens.length + δ ≤ n
  | .err _ => True
  | .outOfFuel => False
  | .panicked => False

/-- Statement of the fuel-sufficiency induction: with fuel at least seventeen
units per remaining token plus the per-method rank constant, every parser
method finishes without fuel exhaustion or panic, and consumes at least the
stated number of tokens on success. -/
structure ProgressAll (fuel : Nat) : Prop where
  primary : ∀ p : Parser, 17 * p.tokens.length + 1 ≤ fuel →
    (Parser.primary fuel p).Progress p.tokens.length 1
  call_loop : ∀ (e : Expr) (p : Parser), 17 * p.tokens.length + 1 ≤ fuel →
    (Parser.call_loop fuel e p).Progress p.tokens.length 0
  call : ∀ p : Parser, 17 * p.tokens.length + 3 ≤ fuel →
    (Parser.call fuel p).Progress p.tokens.length 1
  unary : ∀ p : Parser, 17 * p.tokens.length + 4 ≤ fuel →
    (Parser.unary fuel p).Progress p.tokens.length 1
  factor_loop : ∀ (e : Expr) (p : Parser), 17 * p.tokens.length + 1 ≤ fuel →
    (Parser.factor_loop fuel e p).Progress p.tokens.length 0
  factor : ∀ p : Parser, 17 * p.tokens.length + 5 ≤ fuel →
    (Parser.factor fuel p).Progress p.tokens.length 1
  term_loop : ∀ (e : Expr) (p : Parser), 17 * p.tokens.length + 1 ≤ fuel →
    (Parser.term_loop fuel e p).Progress p.tokens.length 0
  term : ∀ p : Parser, 17 * p.tokens.length + 6 ≤ fuel →
    (Parser.term fuel p).Progress p.tokens.length 1
  comparison_loop : ∀ (e : Expr) (p : Parser), 17 * p.tokens.length + 1 ≤ fuel →
    (Parser.comparison_loop fuel e p).Progress p.tokens.length 0
  comparison : ∀ p : Parser, 17 * p.tokens.length + 7 ≤ fuel →
    (Parser.comparison fuel p).Progress p.tokens.length 1
  equality_loop : ∀ (e : Expr) (p : Parser), 17 * p.tokens.length + 1 ≤ fuel →
    (Parser.equality_loop fuel e p).Progress p.tokens.length 0
  equality : ∀ p : Parser, 17 * p.tokens.length + 8 ≤ fuel →
    (Parser.equality fuel p).Progress p.tokens.length 1
  and_loop : ∀ (e : Expr) (p : Parser), 17 * p.tokens.length + 1 ≤ fuel →
    (Parser.and_loop fuel e p).Progress p.tokens.length 0
  and : ∀ p : Parser, 17 * p.tokens.length + 9 ≤ fuel →
    (Parser.and fuel p).Progress p.tokens.length 1
  or_loop : ∀ (e : Expr) (p : Parser), 17 * p.tokens.length + 1 ≤ fuel →
    (Parser.or_loop fuel e p).Progress p.tokens.length 0
  or : ∀ p : Parser, 17 * p.tokens.length + 10 ≤ fuel →
    (Parser.or fuel p).Progress p.tokens.length 1
  assignment : ∀ p : Parser, 17 * p.tokens.length + 11 ≤ fuel →
    (Parser.assignment fuel p).Progress p.tokens.length 1
  expression : ∀ p : Parser, 17 * p.tokens.length + 12 ≤ fuel →
    (Parser.expression fuel p).Progress p.tokens.length 1
  args_loop : ∀ (args : List Expr) (p : Parser), 17 * p.tokens.length + 13 ≤ fuel →
    (Parser.args_loop fuel args p).Progress p.tokens.length 1
  finish_call : ∀ (callee : Expr) (p : Parser), 17 * p.tokens.length + 14 ≤ fuel →
    (Parser.finish_call fuel callee p).Progress p.tokens.length 1
  print_statement : ∀ p : Parser, 17 * p.tokens.length + 13 ≤ fuel →
    (Parser.print_statement fuel p).Progress p.tokens.length 1
  expression_statement : ∀ p : Parser, 17 * p.tokens.length + 13 ≤ fuel →
    (Parser.expression_statement fuel p).Progress p.tokens.length 1
  return_statement : ∀ (keyword : Token) (p : Parser), 17 * p.tokens.length + 13 ≤ fuel →
    (Parser.return_statement fuel keyword p).Progress p.tokens.length 1
  if_statement : ∀ p : Parser, 17 * p.tokens.length + 1 ≤ fuel →
    (Parser.if_statement fuel p).Progress p.tokens.length 1
  while_statement : ∀ p : Parser, 17 * p.tokens.length + 1 ≤ fuel →
    (Parser.while_statement fuel p).Progress p.tokens.length 1
  for_statement : ∀ p : Parser, 17 * p.tokens.length + 1 ≤ fuel →
    (Parser.for_statement fuel p).Progress p.tokens.length 1
  var_declaration : ∀ p : Parser, 17 * p.tokens.length + 1 ≤ fuel →
    (Parser.var_declaration fuel p).Progress p.tokens.length 1
  class_declaration : ∀ p : Parser, 17 * p.tokens.length + 1 ≤ fuel →
    (Parser.class_declaration fuel p).Progress p.tokens.length 1
  methods_loop : ∀ (methods : List FunctionStatement) (p : Parser),
    17 * p.tokens.length + 16 ≤ fuel →
    (Parser.methods_loop fuel methods p).Progress p.tokens.length 0
  function : ∀ (place : String) (p : Parser), 17 * p.tokens.length + 1 ≤ fuel →
    (Parser.function fuel place p).Progress p.tokens.length 1
  statement : ∀ p : Parser, 17 * p.tokens.length + 14 ≤ fuel →
    (Parser.statement fuel p).Progress p.tokens.length 1
  declaration : ∀ p : Parser, 17 * p.tokens.length + 15 ≤ fuel →
    (Parser.declaration fuel p).Progress p.tokens.length 1
  block_loop : ∀ (acc : List Stmt) (p : Parser), 17 * p.tokens.length + 16 ≤ fuel →
    (Parser.block_loop fuel acc p).Progress p.tokens.length 0
  block : ∀ p : Parser, 17 * p.tokens.length + 17 ≤ fuel →
    (Parser.block fuel p).Progress p.tokens.length 1
  parse_loop : ∀ (acc : List Stmt) (p : Parser), 17 * p.tokens.length + 16 ≤ fuel →
    (Parser.parse_loop fuel acc p).Progress p.tokens.length 0

/-- A token type passes the `Identifier(_)` pattern exactly when it is an
`Identifier` constructor. -/
theorem isIdentifier_iff (tt : TokenType) :
    tt.isIdentifier = true ↔ ∃ s, tt = .Identifier s := by
  cases tt <;> simp [TokenType.isIdentifier]

/-- C1 counterexample: the parser turns the tokens of `true + false` into a
Binary node, but `print_ast` renders it as the prefix form `(+ true false)`,
which fails to reparse (the reparse stops at the `+` with an expected
expression error), so printing and reparsing does not return the original
tree. -/
theorem c1_print_reparse_counterexample :
    Parser.expression 100
        ⟨[⟨.True, "true", 1, 0⟩, ⟨.Plus, "+", 1, 1⟩, ⟨.False, "false", 1, 2⟩,
          ⟨.Eof, "", 1, 3⟩], 10⟩ =
      .ok (Expr.Binary (.Literal ⟨.True, "true", 1, 0⟩) ⟨.Plus, "+", 1, 1⟩
            (.Literal ⟨.False, "false", 1, 2⟩))
        ⟨[⟨.Eof, "", 1, 3⟩], 10⟩ ∧
    print_reparse
        (Expr.Binary (.Literal ⟨.True, "true", 1, 0⟩) ⟨.Plus, "+", 1, 1⟩
          (.Literal ⟨.False, "false", 1, 2⟩)) =
      some (.err ⟨.ExpectedExpression, some ⟨.Plus, "+", 1, 1⟩⟩) :=
  ⟨rfl, rfl⟩

/-- C1 amended: printing and reparsing recovers the expression only for
keyword-literal expressions; a `true`, `false` or `nil` literal prints as the
corresponding keyword, which lexes back to a single token of the same kind, so
the reparse returns a Literal node over a token of the original token type
(with printed lexeme, line 1 and a fresh id). -/
theorem c1_keyword_literal_roundtrip (tt : TokenType) (lexeme : String)
    (line idx : Nat) (h : tt = .True ∨ tt = .False ∨ tt = .Nil) :
    ∃ t2 : Token, t2.token_type = tt ∧
      print_reparse (Expr.Literal ⟨tt, lexeme, line, idx⟩) =
        some (.ok (Expr.Literal t2) ⟨[⟨.Eof, "", 1, 1⟩], 0⟩) := by
  rcases h with rfl | rfl | rfl
  · exact ⟨⟨.True, "true", 1, 0⟩, rfl, rfl⟩
  · exact ⟨⟨.False, "false", 1, 0⟩, rfl, rfl⟩
  · exact ⟨⟨.Nil, "nil", 1, 0⟩, rfl, rfl⟩

/-- Witness for the amended C1 theorem at the `true` literal. -/
theorem c1_keyword_literal_roundtrip_witness :
    ∃ t2 : Token, t2.token_type = TokenType.True ∧
      print_reparse (Expr.Literal ⟨.True, "x", 5, 7⟩) =
        some (.ok (Expr.Literal t2) ⟨[⟨.Eof, "", 1, 1⟩], 0⟩) :=
  c1_keyword_literal_roundtrip .True "x" 5 7 (Or.inl rfl)

/-- C3: evaluation of the parser on `for (;;) print a;`.  The returned
statement is the bare body: no `While` node is produced when the initializer
is missing (the synthesized `true` condition token consumes id 0 and is then
dropped, which is why the final counter is 1). -/
theorem c3_for_without_while_eval :
    Parser.parse
        ⟨[⟨.For, "for", 1, 10⟩, ⟨.LeftParen, "(", 1, 11⟩, ⟨.Semicolon, ";", 1, 12⟩,
          ⟨.Semicolon, ";", 1, 13⟩, ⟨.RightParen, ")", 1, 14⟩,
          ⟨.Print, "print", 1, 15⟩, ⟨.Identifier "a", "a", 1, 16⟩,
          ⟨.Semicolon, ";", 1, 17⟩, ⟨.Eof, "", 1, 18⟩], 0⟩ =
      .ok [Stmt.Print (Expr.Variable ⟨.Identifier "a", "a", 1, 16⟩)]
        ⟨[⟨.Eof, "", 1, 18⟩], 1⟩ :=
  rfl

/-- C4: once the assignment level has parsed a left side `e` and sees `=`, it
parses the right side recursively; a Variable left side becomes Assign, a Get
left side becomes Set, and anything else is rejected with the invalid
assignment target error carrying the `=` token. -/
theorem c4_assignment_target (fuel : Nat) (p p1 p2 : Parser) (e v : Expr)
    (equals : Token) (rest : List Token)
    (hor : Parser.or fuel p = .ok e p1)
    (htok : p1.tokens = equals :: rest)
    (heq : equals.token_type = .Equal)
    (hrec : Parser.assignment fuel { p1 with tokens := rest } = .ok v p2) :
    Parser.assignment (fuel + 1) p =
      match e with
      | .Variable name => .ok (.Assign name v) p2
      | .Get object name => .ok (.Set object name v) p2
      | _ => .err ⟨.InvalidAssignmentTarget, some equals⟩ := by
  simp only [Parser.assignment, hor, PResult.bind, htok, heq, if_true]
  simp only [hrec, PResult.bind]
  cases e <;> rfl

/-- Witness for C4 on `a = b` (Variable left side). -/
theorem c4_assignment_target_witness :
    Parser.assignment 51
        ⟨[⟨.Identifier "a", "a", 1, 0⟩, ⟨.Equal, "=", 1, 1⟩,
          ⟨.Identifier "b", "b", 1, 2⟩, ⟨.Eof, "", 1, 3⟩], 0⟩ =
      .ok (.Assign ⟨.Identifier "a", "a", 1, 0⟩
            (.Variable ⟨.Identifier "b", "b", 1, 2⟩))
        ⟨[⟨.Eof, "", 1, 3⟩], 0⟩ :=
  c4_assignment_target 50
    ⟨[⟨.Identifier "a", "a", 1, 0⟩, ⟨.Equal, "=", 1, 1⟩,
      ⟨.Identifier "b", "b", 1, 2⟩, ⟨.Eof, "", 1, 3⟩], 0⟩
    ⟨[⟨.Equal, "=", 1, 1⟩, ⟨.Identifier "b", "b", 1, 2⟩, ⟨.Eof, "", 1, 3⟩], 0⟩
    ⟨[⟨.Eof, "", 1, 3⟩], 0⟩
    (.Variable ⟨.Identifier "a", "a", 1, 0⟩)
    (.Variable ⟨.Identifier "b", "b", 1, 2⟩)
    ⟨.Equal, "=", 1, 1⟩ _ rfl rfl rfl rfl

/-- C5: a bare `return;` synthesizes a nil literal token carrying the keyword
lexeme and line and the next fresh universal index (which is then advanced),
while `return expr;` parses the expression as the returned value. -/
theorem c5_return_nil_synthesis (fuel : Nat) (keyword : Token) (p : Parser) :
    (∀ t rest, p.tokens = t :: rest → t.token_type = .Semicolon →
      Parser.return_statement (fuel + 1) keyword p =
        .ok (.Return keyword
              (.Literal ⟨.Nil, keyword.lexeme, keyword.line, p.next_universal_index⟩))
          ⟨rest, p.next_universal_index + 1⟩) ∧
    (∀ t rest e p2 t2 rest2, p.tokens = t :: rest → t.token_type ≠ .Semicolon →
      Parser.expression fuel p = .ok e p2 →
      p2.tokens = t2 :: rest2 → t2.token_type = .Semicolon →
      Parser.return_statement (fuel + 1) keyword p =
        .ok (.Return keyword e) ⟨rest2, p2.next_universal_index⟩) := by
  constructor
  · intro t rest hts htt
    simp only [Parser.return_statement, hts, htt, if_true, PResult.bind,
      Parser.expect_token_type]
  · intro t rest e p2 t2 rest2 hts htt hexp hts2 htt2
    simp only [Parser.return_statement, hts, htt, if_false, PResult.bind, hexp,
      Parser.expect_token_type, hts2, htt2, if_true, ite_false, ite_true]

/-- Witness for C5: bare `return;` on line 3, counter at 55. -/
theorem c5_return_nil_synthesis_witness :
    Parser.return_statement 100 ⟨.Return, "return", 3, 9⟩
        ⟨[⟨.Semicolon, ";", 3, 10⟩, ⟨.Eof, "", 3, 11⟩], 55⟩ =
      .ok (.Return ⟨.Return, "return", 3, 9⟩ (.Literal ⟨.Nil, "return", 3, 55⟩))
        ⟨[⟨.Eof, "", 3, 11⟩], 56⟩ :=
  (c5_return_nil_synthesis 99 ⟨.Return, "return", 3, 9⟩
      ⟨[⟨.Semicolon, ";", 3, 10⟩, ⟨.Eof, "", 3, 11⟩], 55⟩).1
    ⟨.Semicolon, ";", 3, 10⟩ [⟨.Eof, "", 3, 11⟩] rfl rfl

/-- C6: `-` at term level associates to the left, and `*` at factor level
binds tighter than `+` at term level: `a - b - c` parses as
`(a - b) - c` and `a + b * c` parses as `a + (b * c)`. -/
theorem c6_term_factor_precedence (a b c : String) :
    Parser.expression 100
        ⟨[⟨.Identifier a, a, 1, 0⟩, ⟨.Minus, "-", 1, 1⟩, ⟨.Identifier b, b, 1, 2⟩,
          ⟨.Minus, "-", 1, 3⟩, ⟨.Identifier c, c, 1, 4⟩, ⟨.Eof, "", 1, 5⟩], 0⟩ =
      .ok (.Binary
            (.Binary (.Variable ⟨.Identifier a, a, 1, 0⟩) ⟨.Minus, "-", 1, 1⟩
              (.Variable ⟨.Identifier b, b, 1, 2⟩))
            ⟨.Minus, "-", 1, 3⟩ (.Variable ⟨.Identifier c, c, 1, 4⟩))
        ⟨[⟨.Eof, "", 1, 5⟩], 0⟩ ∧
    Parser.expression 100
        ⟨[⟨.Identifier a, a, 1, 0⟩, ⟨.Plus, "+", 1, 1⟩, ⟨.Identifier b, b, 1, 2⟩,
          ⟨.Star, "*", 1, 3⟩, ⟨.Identifier c, c, 1, 4⟩, ⟨.Eof, "", 1, 5⟩], 0⟩ =
      .ok (.Binary (.Variable ⟨.Identifier a, a, 1, 0⟩) ⟨.Plus, "+", 1, 1⟩
            (.Binary (.Variable ⟨.Identifier b, b, 1, 2⟩) ⟨.Star, "*", 1, 3⟩
              (.Variable ⟨.Identifier c, c, 1, 4⟩)))
        ⟨[⟨.Eof, "", 1, 5⟩], 0⟩ :=
  ⟨rfl, rfl⟩

/-- C7: in a variable declaration, when the token after the identifier is
neither `=` nor `;`, the parser rejects the input with the expected semicolon
error carrying that token. -/
theorem c7_var_missing_semicolon (fuel : Nat) (name t : Token)
    (rest : List Token) (idx : Nat)
    (hname : name.token_type.isIdentifier = true)
    (he : t.token_type ≠ .Equal) (hs : t.token_type ≠ .Semicolon) :
    Parser.var_declaration (fuel + 1) ⟨name :: t :: rest, idx⟩ =
      .err ⟨.ExpectedSemicolon, some t⟩ := by
  simp only [Parser.var_declaration, hname, if_true, he, hs, if_false,
    ite_false, ite_true]

/-- Witness for C7 on `var x +`. -/
theorem c7_var_missing_semicolon_witness :
    Parser.var_declaration 100
        ⟨[⟨.Identifier "x", "x", 1, 0⟩, ⟨.Plus, "+", 1, 1⟩, ⟨.Eof, "", 1, 2⟩], 0⟩ =
      .err ⟨.ExpectedSemicolon, some ⟨.Plus, "+", 1, 1⟩⟩ :=
  c7_var_missing_semicolon 99 ⟨.Identifier "x", "x", 1, 0⟩ ⟨.Plus, "+", 1, 1⟩
    [⟨.Eof, "", 1, 2⟩] 0 rfl (by simp) (by simp)

/-- C8: the Display rendering of expressions succeeds exactly on the
`renderable` fragment: every Call, Get, Set, This or Super node, and every
Literal, Variable or Assign node whose token is not of the expected
literal/identifier kind, hits a `panic!` or `todo!` arm of `print_ast`
(modelled as `none`); only Literal, Variable, Assign, Unary, Binary, Grouping
and Logical nodes over well-formed tokens are rendered. -/
theorem c8_print_ast_domain (e : Expr) : (print_ast e).isSome = renderable e := by
  suffices H : ∀ (n : Nat) (e : Expr), sizeOf e ≤ n → (print_ast e).isSome = renderable e from
    H (sizeOf e) e le_rfl
  intro n
  induction n with
  | zero => intro e he; exfalso; cases e <;> simp at he
  | succ n ih =>
    intro e he
    cases e with
    | Literal t =>
      rcases t with ⟨tt, lex, ln, ix⟩
      cases tt <;> simp [print_ast, renderable]
    | Variable t =>
      rcases t with ⟨tt, lex, ln, ix⟩
      cases tt <;> simp [print_ast, renderable, TokenType.isIdentifier]
    | Assign name value =>
      have hv : sizeOf value ≤ n := by simp at he; omega
      rcases name with ⟨tt, lex, ln, ix⟩
      cases tt <;> simp [print_ast, renderable, TokenType.isIdentifier, ← ih value hv]
    | Unary operator e1 =>
      have hv : sizeOf e1 ≤ n := by simp at he; omega
      simp [print_ast, renderable, ← ih e1 hv]
    | Binary l op r =>
      have hl : sizeOf l ≤ n := by simp at he; omega
      have hr : sizeOf r ≤ n := by simp at he; omega
      simp [print_ast, renderable, ← ih l hl, ← ih r hr]
      cases print_ast l <;> cases print_ast r <;> simp
    | Grouping e1 =>
      have hv : sizeOf e1 ≤ n := by simp at he; omega
      simp [print_ast, renderable, ← ih e1 hv]
    | Logical l op r =>
      have hl : sizeOf l ≤ n := by simp at he; omega
      have hr : sizeOf r ≤ n := by simp at he; omega
      simp [print_ast, renderable, ← ih l hl, ← ih r hr]
      cases print_ast l <;> cases print_ast r <;> simp
    | Call callee cp args => simp [print_ast, renderable]
    | Get o nm => simp [print_ast, renderable]
    | Set o nm v => simp [print_ast, renderable]
    | This k => simp [print_ast, renderable]
    | Super k m => simp [print_ast, renderable]

/-- The head of a separated nonempty parameter list is its first token. -/
theorem sep_params_cons (q : Token) (tl : List Token) :
    ∃ ts, sep_params (q :: tl) = q :: ts := by
  cases tl <;> simp [sep_params]

/-- The parameter loop accepts a separated identifier list while the total
count stays within the 255 limit, returning the accumulated parameters and
the tokens after the closing parenthesis. -/
theorem params_loop_ok (ps : List Token) :
    ∀ (acc : List Token) (rest : List Token),
    (∀ t ∈ ps, t.token_type.isIdentifier = true) →
    acc.length + ps.length ≤ 255 → ps ≠ [] →
    Parser.params_loop acc (sep_params ps ++ rest) = .ok (acc ++ ps, rest) := by
  induction ps with
  | nil => intro acc rest _ _ hne; simp at hne
  | cons t tl ih =>
    intro acc rest hid hlen _
    have hi := hid t (by simp)
    obtain ⟨s, hs⟩ := (isIdentifier_iff _).1 hi
    cases tl with
    | nil =>
      simp only [sep_params, List.cons_append, List.nil_append]
      rw [Parser.params_loop]
      simp only [List.length_append, List.length_cons] at hlen ⊢
      rw [if_neg (by omega), hs]
      simp [TokenType.isIdentifier]
    | cons t2 tl2 =>
      simp only [sep_params, List.cons_append]
      rw [Parser.params_loop]
      simp only [List.length_cons] at hlen
      rw [if_neg (by omega), hs]
      simp only [TokenType.isIdentifier]
      rw [ih (acc ++ [t]) rest (fun u hu => hid u (by simp [hu]))
        (by simp; omega) (by simp)]
      simp

/-- The parameter loop rejects a separated identifier list that would push the
total count beyond 255 with the dedicated arguments-limit error. -/
theorem params_loop_over (ps : List Token) :
    ∀ (acc : List Token) (rest : List Token),
    (∀ t ∈ ps, t.token_type.isIdentifier = true) →
    256 ≤ acc.length + ps.length →
    ∃ tok, Parser.params_loop acc (sep_params ps ++ rest) =
      .error ⟨.ExceededArgumentsLimit, tok⟩ := by
  induction ps with
  | nil =>
    intro acc rest _ hlen
    refine ⟨acc.getLast?, ?_⟩
    rw [Parser.params_loop.eq_def, if_pos (by simp at hlen; omega)]
  | cons t tl ih =>
    intro acc rest hid hlen
    by_cases hacc : acc.length ≥ 255
    · exact ⟨acc.getLast?, by rw [Parser.params_loop.eq_def, if_pos hacc]⟩
    · have hi := hid t (by simp)
      obtain ⟨s, hs⟩ := (isIdentifier_iff _).1 hi
      cases tl with
      | nil => simp at hlen; omega
      | cons t2 tl2 =>
        simp only [sep_params, List.cons_append]
        rw [Parser.params_loop, if_neg hacc, hs]
        simp only [TokenType.isIdentifier]
        simp only [List.length_cons] at hlen
        have := ih (acc ++ [t]) rest (fun u hu => hid u (by simp [hu]))
          (by simp; omega)
        simpa using this

/-- An identifier token followed by a comma or right parenthesis parses as a
single Variable expression consuming exactly that token. -/
theorem expression_ident (fuel : Nat) (t nt : Token) (rest : List Token) (idx : Nat)
    (hfuel : 14 ≤ fuel)
    (hid : t.token_type.isIdentifier = true)
    (hnt : nt.token_type = .Comma ∨ nt.token_type = .RightParen) :
    Parser.expression fuel ⟨t :: nt :: rest, idx⟩ = .ok (.Variable t) ⟨nt :: rest, idx⟩ := by
  obtain ⟨k, rfl⟩ : ∃ k, fuel = k + 14 := ⟨fuel - 14, by omega⟩
  obtain ⟨s, hs⟩ := (isIdentifier_iff _).1 hid
  rcases t with ⟨tt, lex, ln, ix⟩
  simp only at hs
  subst hs
  rcases nt with ⟨ntt, nlex, nln, nix⟩
  simp only at hnt
  rcases hnt with rfl | rfl <;> rfl

/-- The argument loop accepts a separated identifier list while the total
count stays within the 255 limit, producing the Variable expressions and
stopping on the closing parenthesis. -/
theorem args_loop_ok (qs : List Token) :
    ∀ (acc : List Expr) (fuel : Nat) (rest : List Token) (idx : Nat),
    (∀ t ∈ qs, t.token_type.isIdentifier = true) →
    acc.length + qs.length ≤ 255 → qs ≠ [] → qs.length + 16 ≤ fuel →
    Parser.args_loop fuel acc ⟨sep_params qs ++ rest, idx⟩ =
      .ok (acc ++ qs.map .Variable) ⟨⟨.RightParen, ")", 1, 0⟩ :: rest, idx⟩ := by
  induction qs with
  | nil => intro _ _ _ _ _ _ hne; simp at hne
  | cons t tl ih =>
    intro acc fuel rest idx hid hlen _ hfuel
    obtain ⟨k, rfl⟩ : ∃ k, fuel = k + 1 := ⟨fuel - 1, by omega⟩
    have hi := hid t (by simp)
    cases tl with
    | nil =>
      simp only [sep_params, List.cons_append, List.nil_append]
      rw [Parser.args_loop]
      simp only [List.length_cons] at hlen hfuel
      rw [if_neg (by omega)]
      rw [expression_ident k t ⟨.RightParen, ")", 1, 0⟩ rest idx (by omega) hi
        (Or.inr rfl)]
      simp [PResult.bind]
    | cons t2 tl2 =>
      simp only [sep_params, List.cons_append]
      rw [Parser.args_loop]
      simp only [List.length_cons] at hlen hfuel
      rw [if_neg (by omega)]
      rw [expression_ident k t ⟨.Comma, ",", 1, 0⟩ (sep_params (t2 :: tl2) ++ rest)
        idx (by omega) hi (Or.inl rfl)]
      simp only [PResult.bind, ite_true, if_true]
      have hrec := ih (acc ++ [Expr.Variable t]) k rest idx
        (fun u hu => hid u (by simp [hu])) (by simp; omega) (by simp)
        (by simp only [List.length_cons]; omega)
      rw [hrec]
      simp

/-- The argument loop rejects a separated identifier list that would push the
total count beyond 255 with the dedicated arguments-limit error. -/
theorem args_loop_over (qs : List Token) :
    ∀ (acc : List Expr) (fuel : Nat) (rest : List Token) (idx : Nat),
    (∀ t ∈ qs, t.token_type.isIdentifier = true) →
    256 ≤ acc.length + qs.length → qs.length + 16 ≤ fuel →
    ∃ tok, Parser.args_loop fuel acc ⟨sep_params qs ++ rest, idx⟩ =
      .err ⟨.ExceededArgumentsLimit, tok⟩ := by
  induction qs with
  | nil =>
    intro acc fuel rest idx _ hlen hfuel
    obtain ⟨k, rfl⟩ : ∃ k, fuel = k + 1 := ⟨fuel - 1, by omega⟩
    simp only [List.length_nil] at hlen
    exact ⟨_, by rw [Parser.args_loop, if_pos (by omega)]⟩
  | cons t tl ih =>
    intro acc fuel rest idx hid hlen hfuel
    obtain ⟨k, rfl⟩ : ∃ k, fuel = k + 1 := ⟨fuel - 1, by omega⟩
    by_cases hacc : acc.length ≥ 255
    · exact ⟨_, by rw [Parser.args_loop, if_pos hacc]⟩
    · have hi := hid t (by simp)
      cases tl with
      | nil => simp at hlen; omega
      | cons t2 tl2 =>
        simp only [sep_params, List.cons_append]
        rw [Parser.args_loop]
        simp only [List.length_cons] at hlen hfuel
        rw [if_neg hacc]
        rw [expression_ident k t ⟨.Comma, ",", 1, 0⟩ (sep_params (t2 :: tl2) ++ rest)
          idx (by omega) hi (Or.inl rfl)]
        simp only [PResult.bind, ite_true, if_true]
        exact ih (acc ++ [Expr.Variable t]) k rest idx
          (fun u hu => hid u (by simp [hu])) (by simp; omega)
          (by simp only [List.length_cons]; omega)

/-- A function declaration with exactly 255 parameters parses successfully. -/
theorem function_params_at_limit (ps : List Token) (k idx : Nat)
    (hid : ∀ t ∈ ps, t.token_type.isIdentifier = true)
    (hlen : ps.length = 255) :
    Parser.function (k + 3) "function"
      ⟨⟨.Identifier "f", "f", 1, 0⟩ :: ⟨.LeftParen, "(", 1, 0⟩ ::
        (sep_params ps ++ [⟨.LeftBrace, "", 1, 0⟩, ⟨.RightBrace, "", 1, 0⟩]), idx⟩ =
      .ok (.Function ⟨⟨.Identifier "f", "f", 1, 0⟩, ps, []⟩) ⟨[], idx⟩ := by
  have hok := params_loop_ok ps [] [⟨.LeftBrace, "", 1, 0⟩, ⟨.RightBrace, "", 1, 0⟩]
    hid (by simp; omega) (by intro h; rw [h] at hlen; simp at hlen)
  simp [Parser.function, Parser.expect_identifier, TokenType.isIdentifier,
    PResult.bind, Parser.expect_token_type]
  rw [hok]
  simp [Parser.block, Parser.block_loop, Parser.expect_token_type, PResult.bind]

/-- A function declaration with more than 255 parameters is rejected with the
arguments-limit error. -/
theorem function_params_over_limit (ps : List Token) (k idx : Nat)
    (hid : ∀ t ∈ ps, t.token_type.isIdentifier = true)
    (hlen : 256 ≤ ps.length) :
    ∃ tok, Parser.function (k + 3) "function"
      ⟨⟨.Identifier "f", "f", 1, 0⟩ :: ⟨.LeftParen, "(", 1, 0⟩ ::
        (sep_params ps ++ [⟨.LeftBrace, "", 1, 0⟩, ⟨.RightBrace, "", 1, 0⟩]), idx⟩ =
      .err ⟨.ExceededArgumentsLimit, tok⟩ := by
  obtain ⟨tok, htok⟩ := params_loop_over ps []
    [⟨.LeftBrace, "", 1, 0⟩, ⟨.RightBrace, "", 1, 0⟩] hid (by simp; omega)
  refine ⟨tok, ?_⟩
  simp [Parser.function, Parser.expect_identifier, TokenType.isIdentifier,
    PResult.bind, Parser.expect_token_type]
  rw [htok]

set_option maxHeartbeats 1000000 in
/-- A call with exactly 255 arguments parses successfully. -/
theorem call_args_at_limit (qs : List Token) (k idx : Nat)
    (hid : ∀ t ∈ qs, t.token_type.isIdentifier = true)
    (hlen : qs.length = 255) (hfuel : 271 ≤ k) :
    Parser.expression (k + 12)
      ⟨⟨.Identifier "g", "g", 1, 0⟩ :: ⟨.LeftParen, "(", 1, 0⟩ ::
        (sep_params qs ++ [⟨.Eof, "", 1, 0⟩]), idx⟩ =
      .ok (.Call (.Variable ⟨.Identifier "g", "g", 1, 0⟩) ⟨.RightParen, ")", 1, 0⟩
            (qs.map .Variable))
        ⟨[⟨.Eof, "", 1, 0⟩], idx⟩ := by
  obtain ⟨q, tl, rfl⟩ : ∃ q tl, qs = q :: tl := by
    cases qs with
    | nil => simp at hlen
    | cons q tl => exact ⟨q, tl, rfl⟩
  simp only [List.length_cons] at hlen
  obtain ⟨s, hs⟩ := (isIdentifier_iff _).1 (hid q (by simp))
  have hargs := args_loop_ok (q :: tl) [] k [⟨.Eof, "", 1, 0⟩] idx hid
    (by simp only [List.length_cons, List.length_nil]; omega) (by simp)
    (by simp only [List.length_cons]; omega)
  obtain ⟨ts, hts⟩ := sep_params_cons q tl
  have hfc : Parser.finish_call (k + 1) (.Variable ⟨.Identifier "g", "g", 1, 0⟩)
      ⟨sep_params (q :: tl) ++ [⟨.Eof, "", 1, 0⟩], idx⟩ =
      .ok (.Call (.Variable ⟨.Identifier "g", "g", 1, 0⟩) ⟨.RightParen, ")", 1, 0⟩
            ((q :: tl).map .Variable))
        ⟨[⟨.Eof, "", 1, 0⟩], idx⟩ := by
    rw [hts] at hargs ⊢
    simp only [List.cons_append] at hargs ⊢
    simp [Parser.finish_call, hs, PResult.bind]
    rw [hargs]
    simp [PResult.bind]
  simp [Parser.expression, Parser.assignment, Parser.or, Parser.and,
    Parser.equality, Parser.comparison, Parser.term, Parser.factor, Parser.unary,
    Parser.call, Parser.primary, Parser.call_loop, TokenType.isIdentifier,
    PResult.bind]
  rw [hfc]
  simp [Parser.or_loop, Parser.and_loop, Parser.equality_loop,
    Parser.comparison_loop, Parser.term_loop, Parser.factor_loop,
    Parser.call_loop, PResult.bind]

-- part d: >255 args rejected
set_option maxHeartbeats 1000000 in
/-- A call with more than 255 arguments is rejected with the arguments-limit
error. -/
theorem call_args_over_limit (qs : List Token) (k idx : Nat)
    (hid : ∀ t ∈ qs, t.token_type.isIdentifier = true)
    (hlen : 256 ≤ qs.length) (hfuel : qs.length + 20 ≤ k) :
    ∃ tok, Parser.expression (k + 12)
      ⟨⟨.Identifier "g", "g", 1, 0⟩ :: ⟨.LeftParen, "(", 1, 0⟩ ::
        (sep_params qs ++ [⟨.Eof, "", 1, 0⟩]), idx⟩ =
      .err ⟨.ExceededArgumentsLimit, tok⟩ := by
  obtain ⟨q, tl, rfl⟩ : ∃ q tl, qs = q :: tl := by
    cases qs with
    | nil => simp at hlen
    | cons q tl => exact ⟨q, tl, rfl⟩
  simp only [List.length_cons] at hlen hfuel
  obtain ⟨s, hs⟩ := (isIdentifier_iff _).1 (hid q (by simp))
  obtain ⟨tok, hargs⟩ := args_loop_over (q :: tl) [] k [⟨.Eof, "", 1, 0⟩] idx hid
    (by simp only [List.length_cons, List.length_nil]; omega)
    (by simp only [List.length_cons]; omega)
  obtain ⟨ts, hts⟩ := sep_params_cons q tl
  refine ⟨tok, ?_⟩
  have hfc : Parser.finish_call (k + 1) (.Variable ⟨.Identifier "g", "g", 1, 0⟩)
      ⟨sep_params (q :: tl) ++ [⟨.Eof, "", 1, 0⟩], idx⟩ =
      .err ⟨.ExceededArgumentsLimit, tok⟩ := by
    rw [hts] at hargs ⊢
    simp only [List.cons_append] at hargs ⊢
    simp [Parser.finish_call, hs, PResult.bind]
    rw [hargs]
  simp [Parser.expression, Parser.assignment, Parser.or, Parser.and,
    Parser.equality, Parser.comparison, Parser.term, Parser.factor, Parser.unary,
    Parser.call, Parser.primary, Parser.call_loop, TokenType.isIdentifier,
    PResult.bind]
  rw [hfc]

/-- C2: on a function declaration (respectively call) over a comma-separated
identifier parameter (argument) list, exactly 255 entries parse successfully,
while more than 255 are rejected with the dedicated ExceededArgumentsLimit
error. -/
theorem c2_arity_limit (ps qs : List Token) (k idx : Nat)
    (hps : ∀ t ∈ ps, t.token_type.isIdentifier = true)
    (hqs : ∀ t ∈ qs, t.token_type.isIdentifier = true)
    (hk : 271 ≤ k) (hkq : qs.length + 20 ≤ k) :
    (ps.length = 255 →
      Parser.function (k + 3) "function"
        ⟨⟨.Identifier "f", "f", 1, 0⟩ :: ⟨.LeftParen, "(", 1, 0⟩ ::
          (sep_params ps ++ [⟨.LeftBrace, "", 1, 0⟩, ⟨.RightBrace, "", 1, 0⟩]), idx⟩ =
        .ok (.Function ⟨⟨.Identifier "f", "f", 1, 0⟩, ps, []⟩) ⟨[], idx⟩) ∧
    (256 ≤ ps.length →
      ∃ tok, Parser.function (k + 3) "function"
        ⟨⟨.Identifier "f", "f", 1, 0⟩ :: ⟨.LeftParen, "(", 1, 0⟩ ::
          (sep_params ps ++ [⟨.LeftBrace, "", 1, 0⟩, ⟨.RightBrace, "", 1, 0⟩]), idx⟩ =
        .err ⟨.ExceededArgumentsLimit, tok⟩) ∧
    (qs.length = 255 →
      Parser.expression (k + 12)
        ⟨⟨.Identifier "g", "g", 1, 0⟩ :: ⟨.LeftParen, "(", 1, 0⟩ ::
          (sep_params qs ++ [⟨.Eof, "", 1, 0⟩]), idx⟩ =
        .ok (.Call (.Variable ⟨.Identifier "g", "g", 1, 0⟩) ⟨.RightParen, ")", 1, 0⟩
              (qs.map .Variable))
          ⟨[⟨.Eof, "", 1, 0⟩], idx⟩) ∧
    (256 ≤ qs.length →
      ∃ tok, Parser.expression (k + 12)
        ⟨⟨.Identifier "g", "g", 1, 0⟩ :: ⟨.LeftParen, "(", 1, 0⟩ ::
          (sep_params qs ++ [⟨.Eof, "", 1, 0⟩]), idx⟩ =
        .err ⟨.ExceededArgumentsLimit, tok⟩) :=
  ⟨fun h => function_params_at_limit ps k idx hps h,
   fun h => function_params_over_limit ps k idx hps h,
   fun h => call_args_at_limit qs k idx hqs h hk,
   fun h => call_args_over_limit qs k idx hqs h hkq⟩

/-- Witness for C2 at 255 and 256 parameters and arguments. -/
theorem c2_arity_limit_witness :
    (Parser.function 403 "function"
        ⟨⟨.Identifier "f", "f", 1, 0⟩ :: ⟨.LeftParen, "(", 1, 0⟩ ::
          (sep_params (List.replicate 255 ⟨.Identifier "p", "p", 1, 0⟩) ++
            [⟨.LeftBrace, "", 1, 0⟩, ⟨.RightBrace, "", 1, 0⟩]), 0⟩ =
      .ok (.Function ⟨⟨.Identifier "f", "f", 1, 0⟩,
            List.replicate 255 ⟨.Identifier "p", "p", 1, 0⟩, []⟩) ⟨[], 0⟩) ∧
    (∃ tok, Parser.function 403 "function"
        ⟨⟨.Identifier "f", "f", 1, 0⟩ :: ⟨.LeftParen, "(", 1, 0⟩ ::
          (sep_params (List.replicate 256 ⟨.Identifier "p", "p", 1, 0⟩) ++
            [⟨.LeftBrace, "", 1, 0⟩, ⟨.RightBrace, "", 1, 0⟩]), 0⟩ =
      .err ⟨.ExceededArgumentsLimit, tok⟩) ∧
    (Parser.expression 412
        ⟨⟨.Identifier "g", "g", 1, 0⟩ :: ⟨.LeftParen, "(", 1, 0⟩ ::
          (sep_params (List.replicate 255 ⟨.Identifier "p", "p", 1, 0⟩) ++
            [⟨.Eof, "", 1, 0⟩]), 0⟩ =
      .ok (.Call (.Variable ⟨.Identifier "g", "g", 1, 0⟩) ⟨.RightParen, ")", 1, 0⟩
            ((List.replicate 255 ⟨.Identifier "p", "p", 1, 0⟩).map .Variable))
        ⟨[⟨.Eof, "", 1, 0⟩], 0⟩) ∧
    (∃ tok, Parser.expression 412
        ⟨⟨.Identifier "g", "g", 1, 0⟩ :: ⟨.LeftParen, "(", 1, 0⟩ ::
          (sep_params (List.replicate 256 ⟨.Identifier "p", "p", 1, 0⟩) ++
            [⟨.Eof, "", 1, 0⟩]), 0⟩ =
      .err ⟨.ExceededArgumentsLimit, tok⟩) := by
  have h255 : ∀ t ∈ List.replicate 255 (⟨.Identifier "p", "p", 1, 0⟩ : Token),
      t.token_type.isIdentifier = true := by
    intro t ht
    rw [List.eq_of_mem_replicate ht]
    rfl
  have h256 : ∀ t ∈ List.replicate 256 (⟨.Identifier "p", "p", 1, 0⟩ : Token),
      t.token_type.isIdentifier = true := by
    intro t ht
    rw [List.eq_of_mem_replicate ht]
    rfl
  have ha := c2_arity_limit (List.replicate 255 ⟨.Identifier "p", "p", 1, 0⟩)
    (List.replicate 255 ⟨.Identifier "p", "p", 1, 0⟩) 400 0 h255 h255
    (by omega) (by simp)
  have hb := c2_arity_limit (List.replicate 256 ⟨.Identifier "p", "p", 1, 0⟩)
    (List.replicate 256 ⟨.Identifier "p", "p", 1, 0⟩) 400 0 h256 h256
    (by omega) (by simp)
  exact ⟨ha.1 (by simp), hb.2.1 (by simp), ha.2.2.1 (by simp), hb.2.2.2 (by simp)⟩

/-- Monotonicity of the progress predicate in the token budget and the
consumption bound. -/
theorem PResult.Progress.mono {α : Type} {n n' δ δ' : Nat} {r : PResult α}
    (hn : n ≤ n') (hδ : δ' ≤ δ) (h : r.Progress n δ) : r.Progress n' δ' := by
  cases r with
  | ok a p' => simp [PResult.Progress] at h ⊢; omega
  | err e => simp [PResult.Progress]
  | outOfFuel => simp [PResult.Progress] at h
  | panicked => simp [PResult.Progress] at h

/-- Progress composes through sequencing: if the first step makes progress and
every continuation makes progress from the intermediate state, the sequence
makes combined progress. -/
theorem PResult.Progress.bind {α β : Type} {n δ₁ δ₂ δ : Nat} {r : PResult α}
    {kf : α → Parser → PResult β}
    (h1 : r.Progress n δ₁)
    (h2 : ∀ a p', r = .ok a p' → p'.tokens.length + δ₁ ≤ n →
      (kf a p').Progress p'.tokens.length δ₂)
    (hδ : δ ≤ δ₁ + δ₂) :
    (PResult.bind r kf).Progress n δ := by
  cases r with
  | ok a p' =>
    have h2' := h2 a p' rfl h1
    simp only [PResult.bind]
    cases hk : kf a p' with
    | ok b p'' =>
      rw [hk] at h2'
      simp [PResult.Progress] at h1 h2' ⊢
      omega
    | err e => simp [PResult.Progress]
    | outOfFuel => rw [hk] at h2'; simp [PResult.Progress] at h2'
    | panicked => rw [hk] at h2'; simp [PResult.Progress] at h2'
  | err e => simp [PResult.bind, PResult.Progress]
  | outOfFuel => simp [PResult.Progress] at h1
  | panicked => simp [PResult.Progress] at h1

/-- The token-expectation helper consumes one token on success and never
exhausts fuel or panics. -/
theorem expect_token_type_progress (tt : TokenType) (kind : ErrorKind) (p : Parser) :
    (Parser.expect_token_type tt kind p).Progress p.tokens.length 1 := by
  rcases hts : p.tokens with _ | ⟨t, rest⟩ <;>
    rw [Parser.expect_token_type.eq_def, hts]
  · simp [PResult.Progress]
  · split <;> [(split <;> simp_all [PResult.Progress]); simp_all]

/-- The identifier-expectation helper consumes one token on success and never
exhausts fuel or panics. -/
theorem expect_identifier_progress (place : String) (p : Parser) :
    (Parser.expect_identifier place p).Progress p.tokens.length 1 := by
  rcases hts : p.tokens with _ | ⟨t, rest⟩ <;>
    rw [Parser.expect_identifier.eq_def, hts]
  · simp [PResult.Progress]
  · split <;> [(split <;> simp_all [PResult.Progress]); simp_all]

/-- The parameter loop strictly consumes tokens on success. -/
theorem params_loop_rest_lt :
    ∀ (n : Nat) (ts params pr rest : List Token), ts.length ≤ n →
    Parser.params_loop params ts = .ok (pr, rest) → rest.length < ts.length := by
  intro n
  induction n with
  | zero =>
    intro ts params pr rest hlen h
    rw [Parser.params_loop.eq_def] at h
    rcases ts with _ | ⟨t, rest1⟩
    · split at h <;> simp at h
    · simp at hlen
  | succ n ih =>
    intro ts params pr rest hlen h
    rw [Parser.params_loop.eq_def] at h
    by_cases h255 : params.length ≥ 255
    · rw [if_pos h255] at h; simp at h
    · rw [if_neg h255] at h
      rcases ts with _ | ⟨t, rest1⟩
      · simp at h
      · dsimp only at h
        by_cases hrp : t.token_type = .RightParen
        · rw [if_pos hrp] at h
          simp at h
          simp [← h.2]
        · rw [if_neg hrp] at h
          by_cases hid : t.token_type.isIdentifier = true
          · rw [if_pos hid] at h
            rcases rest1 with _ | ⟨t2, rest2⟩
            · simp at h
            · dsimp only at h
              by_cases hc : t2.token_type = .Comma
              · rw [if_pos hc] at h
                have := ih rest2 (params ++ [t]) pr rest
                  (by simp at hlen ⊢; omega) h
                simp only [List.length_cons]
                omega
              · rw [if_neg hc] at h
                by_cases hrp2 : t2.token_type = .RightParen
                · rw [if_pos hrp2] at h
                  simp at h
                  simp only [← h.2, List.length_cons]
                  omega
                · rw [if_neg hrp2] at h; simp at h
          · rw [if_neg hid] at h; simp at h

/-- Inversion for sequencing a successful outcome. -/
theorem PResult.bind_eq_ok {α β : Type} {r : PResult α} {k : α → Parser → PResult β}
    {b : β} {p2 : Parser} (h : PResult.bind r k = .ok b p2) :
    ∃ a p1, r = .ok a p1 ∧ k a p1 = .ok b p2 := by
  cases r with
  | ok a p1 => exact ⟨a, p1, rfl, h⟩
  | err e => simp [PResult.bind] at h
  | outOfFuel => simp [PResult.bind] at h
  | panicked => simp [PResult.bind] at h

/-- Whenever Parser::function succeeds, the returned statement is a
`Stmt.Function`. -/
theorem function_ok (fuel : Nat) (place : String) (p p2 : Parser) (r : Stmt)
    (h : Parser.function fuel place p = .ok r p2) :
    ∃ fs, r = Stmt.Function fs := by
  match fuel with
  | 0 => simp [Parser.function] at h
  | fuel + 1 =>
    simp only [Parser.function] at h
    obtain ⟨name, p1, h1, h⟩ := PResult.bind_eq_ok h
    obtain ⟨_, q2, h2, h⟩ := PResult.bind_eq_ok h
    rcases hpl : Parser.params_loop [] q2.tokens with e | pr
    · rw [hpl] at h; simp at h
    · rw [hpl] at h
      obtain ⟨params, rest⟩ := pr
      simp only at h
      obtain ⟨_, q4, h4, h⟩ := PResult.bind_eq_ok h
      obtain ⟨body, q5, h5, h⟩ := PResult.bind_eq_ok h
      simp only [PResult.ok.injEq] at h
      exact ⟨⟨name, params, body⟩, h.1.symm⟩

/-- The fuel-sufficiency induction for the whole mutual family of parser
methods, by strong induction on the fuel. -/
theorem parser_progress : ∀ fuel, ProgressAll fuel := by
  intro fuel
  induction fuel using Nat.strong_induction_on with
  | _ fuel IH =>
  exact
    { primary := by
        intro p h
        obtain ⟨k, rfl⟩ : ∃ k, fuel = k + 1 := ⟨fuel - 1, by omega⟩
        have Hk := IH k (Nat.lt_succ_self k)
        rcases hts : p.tokens with _ | ⟨t, rest⟩
        · simp only [Parser.primary, hts]
          simp [PResult.Progress, hts]
        · simp only [Parser.primary, hts]
          rw [hts] at h
          simp only [List.length_cons] at h ⊢
          split
          · simp [PResult.Progress]
          · split
            · simp [PResult.Progress]
            · split
              · simp [PResult.Progress]
              · split
                · rcases rest with _ | ⟨d, rest2⟩
                  · simp [PResult.Progress]
                  · simp only []
                    split
                    · rcases rest2 with _ | ⟨m, rest3⟩
                      · simp [PResult.Progress]
                      · simp only []
                        split
                        · simp [PResult.Progress]
                        · simp [PResult.Progress]
                    · simp [PResult.Progress]
                · split
                  · refine PResult.Progress.mono (Nat.le_succ rest.length) (le_refl 1) ?_
                    refine @PResult.Progress.bind _ _ _ 1 1 1 _ _
                      (Hk.expression { p with tokens := rest } (by simp; omega)) ?_ (by omega)
                    intro a p2 _ hlen
                    rcases hts2 : p2.tokens with _ | ⟨t2, rest2⟩
                    · simp [PResult.Progress]
                    · simp only [hts2]
                      split
                      · simp [PResult.Progress, hts2]
                      · simp [PResult.Progress]
                  · simp [PResult.Progress]
      args_loop := by
        intro args p h
        obtain ⟨k, rfl⟩ : ∃ k, fuel = k + 1 := ⟨fuel - 1, by omega⟩
        have Hk := IH k (Nat.lt_succ_self k)
        simp only [Parser.args_loop]
        split
        · simp [PResult.Progress]
        · refine @PResult.Progress.bind _ _ _ 1 0 1 _ _
            (Hk.expression p (by omega)) ?_ (by omega)
          intro a p2 _ hlen
          rcases hts2 : p2.tokens with _ | ⟨t, rest⟩
          · simp [PResult.Progress, hts2]
          · simp only [hts2]
            have hp2 : p2.tokens.length = rest.length + 1 := by rw [hts2]; simp
            split
            · exact PResult.Progress.mono (by simp) (Nat.zero_le 1)
                (Hk.args_loop _ { p2 with tokens := rest } (by simp; omega))
            · simp [PResult.Progress, hts2]
      finish_call := by
        intro callee p h
        obtain ⟨k, rfl⟩ : ∃ k, fuel = k + 1 := ⟨fuel - 1, by omega⟩
        have Hk := IH k (Nat.lt_succ_self k)
        simp only [Parser.finish_call]
        refine @PResult.Progress.bind _ _ _ 0 1 1 _ _ ?_ ?_ (by omega)
        · rcases hts : p.tokens with _ | ⟨t, rest⟩
          · exact PResult.Progress.mono
              (show p.tokens.length ≤ ([] : List Token).length from le_of_eq (by rw [hts]))
              (Nat.zero_le 1) (Hk.args_loop [] p (by omega))
          · simp only [hts]
            split
            · simp [PResult.Progress, hts]
            · exact PResult.Progress.mono (le_of_eq (by rw [hts])) (Nat.zero_le 1)
                (Hk.args_loop [] p (by omega))
        · intro a p2 _ hlen
          rcases hts2 : p2.tokens with _ | ⟨t, rest⟩
          · simp [PResult.Progress, hts2]
          · simp only [hts2]
            split
            · simp [PResult.Progress, hts2]
            · simp [PResult.Progress]
      print_statement := by
        intro p h
        obtain ⟨k, rfl⟩ : ∃ k, fuel = k + 1 := ⟨fuel - 1, by omega⟩
        have Hk := IH k (Nat.lt_succ_self k)
        simp only [Parser.print_statement]
        refine @PResult.Progress.bind _ _ _ 1 0 1 _ _
          (Hk.expression p (by omega)) ?_ (by omega)
        intro a p2 _ hlen
        rcases hts2 : p2.tokens with _ | ⟨t, rest⟩
        · simp [PResult.Progress, hts2]
        · simp only [hts2]
          split
          · simp [PResult.Progress, hts2]
          · simp [PResult.Progress]
      expression_statement := by
        intro p h
        obtain ⟨k, rfl⟩ : ∃ k, fuel = k + 1 := ⟨fuel - 1, by omega⟩
        have Hk := IH k (Nat.lt_succ_self k)
        simp only [Parser.expression_statement]
        refine @PResult.Progress.bind _ _ _ 1 0 1 _ _
          (Hk.expression p (by omega)) ?_ (by omega)
        intro a p2 _ hlen
        rcases hts2 : p2.tokens with _ | ⟨t, rest⟩
        · simp [PResult.Progress, hts2]
        · simp only [hts2]
          split
          · simp [PResult.Progress, hts2]
          · simp [PResult.Progress]
      return_statement := by
        intro keyword p h
        obtain ⟨k, rfl⟩ : ∃ k, fuel = k + 1 := ⟨fuel - 1, by omega⟩
        have Hk := IH k (Nat.lt_succ_self k)
        simp only [Parser.return_statement]
        refine @PResult.Progress.bind _ _ _ 0 1 1 _ _ ?_ ?_ (by omega)
        · rcases hts : p.tokens with _ | ⟨t, rest⟩
          · exact PResult.Progress.mono (le_of_eq (by rw [hts])) (Nat.zero_le 1)
              (Hk.expression p (by omega))
          · simp only [hts]
            split
            · simp [PResult.Progress, hts]
            · exact PResult.Progress.mono (le_of_eq (by rw [hts])) (Nat.zero_le 1)
                (Hk.expression p (by omega))
        · intro a p2 _ hlen
          refine @PResult.Progress.bind _ _ _ 1 0 1 _ _
            (expect_token_type_progress _ _ p2) ?_ (by omega)
          intro t p3 _ hlen3
          simp [PResult.Progress]
      if_statement := by
        intro p h
        obtain ⟨k, rfl⟩ : ∃ k, fuel = k + 1 := ⟨fuel - 1, by omega⟩
        have Hk := IH k (Nat.lt_succ_self k)
        simp only [Parser.if_statement]
        refine @PResult.Progress.bind _ _ _ 1 0 1 _ _
          (expect_token_type_progress _ _ p) ?_ (by omega)
        intro _ p1 _ hlen1
        refine @PResult.Progress.bind _ _ _ 1 0 0 _ _
          (Hk.expression p1 (by omega)) ?_ (by omega)
        intro cond p2 _ hlen2
        refine @PResult.Progress.bind _ _ _ 1 0 0 _ _
          (expect_token_type_progress _ _ p2) ?_ (by omega)
        intro _ p3 _ hlen3
        refine @PResult.Progress.bind _ _ _ 1 0 0 _ _
          (Hk.statement p3 (by omega)) ?_ (by omega)
        intro thenB p4 _ hlen4
        rcases hts4 : p4.tokens with _ | ⟨t, rest⟩
        · simp [PResult.Progress, hts4]
        · simp only [hts4]
          have hp4 : p4.tokens.length = rest.length + 1 := by rw [hts4]; simp
          split
          · refine PResult.Progress.mono (show rest.length ≤ (t :: rest).length by simp)
              (Nat.zero_le 0) ?_
            refine @PResult.Progress.bind _ _ _ 1 0 0 _ _
              (Hk.statement { p4 with tokens := rest } (by simp; omega)) ?_ (by omega)
            intro e p5 _ hlen5
            simp [PResult.Progress]
          · simp [PResult.Progress, hts4]
      while_statement := by
        intro p h
        obtain ⟨k, rfl⟩ : ∃ k, fuel = k + 1 := ⟨fuel - 1, by omega⟩
        have Hk := IH k (Nat.lt_succ_self k)
        simp only [Parser.while_statement]
        refine @PResult.Progress.bind _ _ _ 1 0 1 _ _
          (expect_token_type_progress _ _ p) ?_ (by omega)
        intro _ p1 _ hlen1
        refine @PResult.Progress.bind _ _ _ 1 0 0 _ _
          (Hk.expression p1 (by omega)) ?_ (by omega)
        intro cond p2 _ hlen2
        refine @PResult.Progress.bind _ _ _ 1 0 0 _ _
          (expect_token_type_progress _ _ p2) ?_ (by omega)
        intro _ p3 _ hlen3
        refine @PResult.Progress.bind _ _ _ 1 0 0 _ _
          (Hk.statement p3 (by omega)) ?_ (by omega)
        intro body p4 _ hlen4
        simp [PResult.Progress]
      for_statement := by
        intro p h
        obtain ⟨k, rfl⟩ : ∃ k, fuel = k + 1 := ⟨fuel - 1, by omega⟩
        have Hk := IH k (Nat.lt_succ_self k)
        simp only [Parser.for_statement]
        refine @PResult.Progress.bind _ _ _ 1 0 1 _ _
          (expect_token_type_progress _ _ p) ?_ (by omega)
        intro _ p1 _ hlen1
        refine @PResult.Progress.bind _ _ _ 1 0 0 _ _ ?_ ?_ (by omega)
        · rcases hts1 : p1.tokens with _ | ⟨t, rest⟩
          · refine @PResult.Progress.bind _ _ _ 1 0 1 _ _
              (PResult.Progress.mono (le_of_eq (by rw [hts1])) (le_refl 1)
                (Hk.expression_statement p1 (by omega))) ?_ (by omega)
            intro st p2 _ hlen2
            simp [PResult.Progress]
          · simp only [hts1]
            have hp1 : p1.tokens.length = rest.length + 1 := by rw [hts1]; simp
            split
            · simp [PResult.Progress]
            · split
              · refine PResult.Progress.mono (Nat.le_succ rest.length) (le_refl 1) ?_
                refine @PResult.Progress.bind _ _ _ 1 0 1 _ _
                  (Hk.var_declaration { p1 with tokens := rest } (by simp; omega))
                  ?_ (by omega)
                intro st p2 _ hlen2
                simp [PResult.Progress]
              · refine @PResult.Progress.bind _ _ _ 1 0 1 _ _
                  (PResult.Progress.mono (le_of_eq (by rw [hts1])) (le_refl 1)
                    (Hk.expression_statement p1 (by omega))) ?_ (by omega)
                intro st p2 _ hlen2
                simp [PResult.Progress]
        intro initOpt p2 _ hlen2
        refine @PResult.Progress.bind _ _ _ 0 0 0 _ _ ?_ ?_ (by omega)
        · rcases hts2 : p2.tokens with _ | ⟨t, rest⟩
          · refine @PResult.Progress.bind _ _ _ 1 0 0 _ _
              (PResult.Progress.mono (le_of_eq (by rw [hts2])) (le_refl 1)
                (Hk.expression p2 (by omega))) ?_ (by omega)
            intro c p3 _ hlen3
            simp [PResult.Progress]
          · simp only [hts2]
            have hp2 : p2.tokens.length = rest.length + 1 := by rw [hts2]; simp
            split
            · simp [PResult.Progress, hts2]
            · refine @PResult.Progress.bind _ _ _ 1 0 0 _ _
                (PResult.Progress.mono (le_of_eq (by rw [hts2])) (le_refl 1)
                  (Hk.expression p2 (by omega))) ?_ (by omega)
              intro c p3 _ hlen3
              simp [PResult.Progress]
        intro condOpt p3 _ hlen3
        refine @PResult.Progress.bind _ _ _ 1 0 0 _ _
          (expect_token_type_progress _ _ p3) ?_ (by omega)
        intro _ p4 _ hlen4
        refine @PResult.Progress.bind _ _ _ 0 0 0 _ _ ?_ ?_ (by omega)
        · rcases hts4 : p4.tokens with _ | ⟨t, rest⟩
          · refine @PResult.Progress.bind _ _ _ 1 0 0 _ _
              (PResult.Progress.mono (le_of_eq (by rw [hts4])) (le_refl 1)
                (Hk.expression p4 (by omega))) ?_ (by omega)
            intro c p5 _ hlen5
            simp [PResult.Progress]
          · simp only [hts4]
            have hp4 : p4.tokens.length = rest.length + 1 := by rw [hts4]; simp
            split
            · simp [PResult.Progress, hts4]
            · refine @PResult.Progress.bind _ _ _ 1 0 0 _ _
                (PResult.Progress.mono (le_of_eq (by rw [hts4])) (le_refl 1)
                  (Hk.expression p4 (by omega))) ?_ (by omega)
              intro c p5 _ hlen5
              simp [PResult.Progress]
        intro incrOpt p5 _ hlen5
        refine @PResult.Progress.bind _ _ _ 1 0 0 _ _
          (expect_token_type_progress _ _ p5) ?_ (by omega)
        intro _ p6 _ hlen6
        refine @PResult.Progress.bind _ _ _ 1 0 0 _ _
          (Hk.statement p6 (by omega)) ?_ (by omega)
        intro body p7 _ hlen7
        simp [PResult.Progress]
      var_declaration := by
        intro p h
        obtain ⟨k, rfl⟩ : ∃ k, fuel = k + 1 := ⟨fuel - 1, by omega⟩
        have Hk := IH k (Nat.lt_succ_self k)
        rcases hts : p.tokens with _ | ⟨name, rest⟩
        · simp [Parser.var_declaration, hts, PResult.Progress]
        · simp only [Parser.var_declaration, hts]
          rw [hts] at h
          simp only [List.length_cons] at h ⊢
          split
          · rcases rest with _ | ⟨t, rest2⟩
            · simp [PResult.Progress]
            · simp only []
              split
              · refine PResult.Progress.mono
                  (show rest2.length ≤ (t :: rest2).length + 1 by simp; omega)
                  (le_refl 1) ?_
                refine @PResult.Progress.bind _ _ _ 1 0 1 _ _
                  (Hk.expression { p with tokens := rest2 }
                    (by simp only [List.length_cons] at h; simp; omega)) ?_ (by omega)
                intro init p2 _ hlen2
                rcases hts2 : p2.tokens with _ | ⟨t2, rest3⟩
                · simp [PResult.Progress, hts2]
                · simp only [hts2]
                  split
                  · simp [PResult.Progress, hts2]
                  · simp [PResult.Progress]
              · split
                · simp [PResult.Progress]
                · simp [PResult.Progress]
          · simp [PResult.Progress]
      class_declaration := by
        intro p h
        obtain ⟨k, rfl⟩ : ∃ k, fuel = k + 1 := ⟨fuel - 1, by omega⟩
        have Hk := IH k (Nat.lt_succ_self k)
        simp only [Parser.class_declaration]
        refine @PResult.Progress.bind _ _ _ 1 0 1 _ _
          (expect_identifier_progress _ p) ?_ (by omega)
        intro name p1 _ hlen1
        refine @PResult.Progress.bind _ _ _ 0 0 0 _ _ ?_ ?_ (by omega)
        · rcases hts1 : p1.tokens with _ | ⟨t, rest⟩
          · simp [PResult.Progress, hts1]
          · simp only [hts1]
            split
            · refine PResult.Progress.mono (Nat.le_succ rest.length) (le_refl 0) ?_
              refine @PResult.Progress.bind _ _ _ 1 0 0 _ _
                (expect_identifier_progress _ { p1 with tokens := rest }) ?_ (by omega)
              intro sc p2 _ hlen2
              simp [PResult.Progress]
            · simp [PResult.Progress, hts1]
        intro superOpt p2 _ hlen2
        refine @PResult.Progress.bind _ _ _ 1 0 0 _ _
          (expect_token_type_progress _ _ p2) ?_ (by omega)
        intro _ p3 _ hlen3
        refine @PResult.Progress.bind _ _ _ 0 0 0 _ _
          (Hk.methods_loop [] p3 (by omega)) ?_ (by omega)
        intro methods p4 _ hlen4
        refine @PResult.Progress.bind _ _ _ 1 0 0 _ _
          (expect_token_type_progress _ _ p4) ?_ (by omega)
        intro _ p5 _ hlen5
        simp [PResult.Progress]
      methods_loop := by
        intro methods p h
        obtain ⟨k, rfl⟩ : ∃ k, fuel = k + 1 := ⟨fuel - 1, by omega⟩
        have Hk := IH k (Nat.lt_succ_self k)
        rcases hts : p.tokens with _ | ⟨t, rest⟩
        · simp [Parser.methods_loop, hts, PResult.Progress]
        · simp only [Parser.methods_loop, hts]
          split
          · simp [PResult.Progress, hts]
          · refine PResult.Progress.mono
              (show p.tokens.length ≤ (t :: rest).length from le_of_eq (by rw [hts]))
              (le_refl 0) ?_
            refine @PResult.Progress.bind _ _ _ 1 0 0 _ _
              (Hk.function "method" p (by omega)) ?_ (by omega)
            intro st p2 hok hlen
            obtain ⟨fs, rfl⟩ := function_ok k "method" p p2 st hok
            exact Hk.methods_loop _ p2 (by omega)
      function := by
        intro place p h
        obtain ⟨k, rfl⟩ : ∃ k, fuel = k + 1 := ⟨fuel - 1, by omega⟩
        have Hk := IH k (Nat.lt_succ_self k)
        simp only [Parser.function]
        refine @PResult.Progress.bind _ _ _ 1 0 1 _ _
          (expect_identifier_progress _ p) ?_ (by omega)
        intro name p1 _ hlen1
        refine @PResult.Progress.bind _ _ _ 1 0 0 _ _
          (expect_token_type_progress _ _ p1) ?_ (by omega)
        intro _ p2 _ hlen2
        rcases hpl : Parser.params_loop [] p2.tokens with e | pr
        · simp [hpl, PResult.Progress]
        · obtain ⟨params, rest⟩ := pr
          have hlt := params_loop_rest_lt p2.tokens.length p2.tokens [] params rest
            le_rfl hpl
          simp only [hpl]
          refine @PResult.Progress.bind _ _ _ 1 0 0 _ _
            (PResult.Progress.mono (le_of_lt hlt) (le_refl 1)
              (expect_token_type_progress _ _ { p2 with tokens := rest })) ?_ (by omega)
          intro _ p4 _ hlen4
          refine @PResult.Progress.bind _ _ _ 1 0 0 _ _
            (Hk.block p4 (by omega)) ?_ (by omega)
          intro body p5 _ hlen5
          simp [PResult.Progress]
      statement := by
        intro p h
        obtain ⟨k, rfl⟩ : ∃ k, fuel = k + 1 := ⟨fuel - 1, by omega⟩
        have Hk := IH k (Nat.lt_succ_self k)
        rcases hts : p.tokens with _ | ⟨t, rest⟩
        · simp only [Parser.statement, hts]
          exact PResult.Progress.mono (le_of_eq (by rw [hts])) (le_refl 1)
            (Hk.expression_statement p (by omega))
        · simp only [Parser.statement, hts]
          rw [hts] at h
          simp only [List.length_cons] at h ⊢
          split
          · exact PResult.Progress.mono (Nat.le_succ rest.length) (le_refl 1)
              (Hk.if_statement { p with tokens := rest } (by simp; omega))
          · split
            · exact PResult.Progress.mono (Nat.le_succ rest.length) (le_refl 1)
                (Hk.print_statement { p with tokens := rest } (by simp; omega))
            · split
              · exact PResult.Progress.mono (Nat.le_succ rest.length) (le_refl 1)
                  (Hk.while_statement { p with tokens := rest } (by simp; omega))
              · split
                · exact PResult.Progress.mono (Nat.le_succ rest.length) (le_refl 1)
                    (Hk.for_statement { p with tokens := rest } (by simp; omega))
                · split
                  · refine PResult.Progress.mono (Nat.le_succ rest.length) (le_refl 1) ?_
                    refine @PResult.Progress.bind _ _ _ 1 0 1 _ _
                      (Hk.block { p with tokens := rest } (by simp; omega)) ?_ (by omega)
                    intro stmts p2 _ hlen2
                    simp [PResult.Progress]
                  · split
                    · exact PResult.Progress.mono (Nat.le_succ rest.length) (le_refl 1)
                        (Hk.return_statement t { p with tokens := rest } (by simp; omega))
                    · exact PResult.Progress.mono (by rw [hts]; simp) (le_refl 1)
                        (Hk.expression_statement p
                          (by rw [hts]; simp only [List.length_cons]; omega))
      declaration := by
        intro p h
        obtain ⟨k, rfl⟩ : ∃ k, fuel = k + 1 := ⟨fuel - 1, by omega⟩
        have Hk := IH k (Nat.lt_succ_self k)
        rcases hts : p.tokens with _ | ⟨t, rest⟩
        · simp only [Parser.declaration, hts]
          exact PResult.Progress.mono (le_of_eq (by rw [hts])) (le_refl 1)
            (Hk.statement p (by omega))
        · simp only [Parser.declaration, hts]
          rw [hts] at h
          simp only [List.length_cons] at h ⊢
          split
          · exact PResult.Progress.mono (Nat.le_succ rest.length) (le_refl 1)
              (Hk.function "function" { p with tokens := rest } (by simp; omega))
          · split
            · exact PResult.Progress.mono (Nat.le_succ rest.length) (le_refl 1)
                (Hk.var_declaration { p with tokens := rest } (by simp; omega))
            · split
              · exact PResult.Progress.mono (Nat.le_succ rest.length) (le_refl 1)
                  (Hk.class_declaration { p with tokens := rest } (by simp; omega))
              · exact PResult.Progress.mono (by rw [hts]; simp) (le_refl 1)
                  (Hk.statement p (by rw [hts]; simp only [List.length_cons]; omega))
      block_loop := by
        intro acc p h
        obtain ⟨k, rfl⟩ : ∃ k, fuel = k + 1 := ⟨fuel - 1, by omega⟩
        have Hk := IH k (Nat.lt_succ_self k)
        rcases hts : p.tokens with _ | ⟨t, rest⟩
        · simp [Parser.block_loop, hts, PResult.Progress]
        · simp only [Parser.block_loop, hts]
          split
          · simp [PResult.Progress, hts]
          · refine PResult.Progress.mono
              (show p.tokens.length ≤ (t :: rest).length from le_of_eq (by rw [hts]))
              (le_refl 0) ?_
            refine @PResult.Progress.bind _ _ _ 1 0 0 _ _
              (Hk.declaration p (by omega)) ?_ (by omega)
            intro st p2 _ hlen
            exact Hk.block_loop _ p2 (by omega)
      block := by
        intro p h
        obtain ⟨k, rfl⟩ : ∃ k, fuel = k + 1 := ⟨fuel - 1, by omega⟩
        have Hk := IH k (Nat.lt_succ_self k)
        simp only [Parser.block]
        refine @PResult.Progress.bind _ _ _ 0 1 1 _ _
          (Hk.block_loop [] p (by omega)) ?_ (by omega)
        intro stmts p2 _ hlen
        rcases hts2 : p2.tokens with _ | ⟨t, rest⟩
        · simp [PResult.Progress, hts2]
        · simp only [hts2]
          split
          · simp [PResult.Progress, hts2]
          · simp [PResult.Progress]
      or_loop := by
        intro e p h
        obtain ⟨k, rfl⟩ : ∃ k, fuel = k + 1 := ⟨fuel - 1, by omega⟩
        have Hk := IH k (Nat.lt_succ_self k)
        rcases hts : p.tokens with _ | ⟨op, rest⟩
        · simp only [Parser.or_loop, hts]
          simp [PResult.Progress, hts]
        · simp only [Parser.or_loop, hts]
          rw [hts] at h
          simp only [List.length_cons] at h ⊢
          split
          · refine PResult.Progress.mono (Nat.le_succ rest.length) (Nat.zero_le 0) ?_
            refine @PResult.Progress.bind _ _ _ 1 0 0 _ _
              (Hk.and { p with tokens := rest } (by simp; omega)) ?_ (by omega)
            intro a p2 _ hlen
            exact Hk.or_loop _ p2 (by omega)
          · simp [PResult.Progress, hts]
      and_loop := by
        intro e p h
        obtain ⟨k, rfl⟩ : ∃ k, fuel = k + 1 := ⟨fuel - 1, by omega⟩
        have Hk := IH k (Nat.lt_succ_self k)
        rcases hts : p.tokens with _ | ⟨op, rest⟩
        · simp only [Parser.and_loop, hts]
          simp [PResult.Progress, hts]
        · simp only [Parser.and_loop, hts]
          rw [hts] at h
          simp only [List.length_cons] at h ⊢
          split
          · refine PResult.Progress.mono (Nat.le_succ rest.length) (Nat.zero_le 0) ?_
            refine @PResult.Progress.bind _ _ _ 1 0 0 _ _
              (Hk.equality { p with tokens := rest } (by simp; omega)) ?_ (by omega)
            intro a p2 _ hlen
            exact Hk.and_loop _ p2 (by omega)
          · simp [PResult.Progress, hts]
      equality_loop := by
        intro e p h
        obtain ⟨k, rfl⟩ : ∃ k, fuel = k + 1 := ⟨fuel - 1, by omega⟩
        have Hk := IH k (Nat.lt_succ_self k)
        rcases hts : p.tokens with _ | ⟨op, rest⟩
        · simp only [Parser.equality_loop, hts]
          simp [PResult.Progress, hts]
        · simp only [Parser.equality_loop, hts]
          rw [hts] at h
          simp only [List.length_cons] at h ⊢
          split
          · refine PResult.Progress.mono (Nat.le_succ rest.length) (Nat.zero_le 0) ?_
            refine @PResult.Progress.bind _ _ _ 1 0 0 _ _
              (Hk.comparison { p with tokens := rest } (by simp; omega)) ?_ (by omega)
            intro a p2 _ hlen
            exact Hk.equality_loop _ p2 (by omega)
          · simp [PResult.Progress, hts]
      comparison_loop := by
        intro e p h
        obtain ⟨k, rfl⟩ : ∃ k, fuel = k + 1 := ⟨fuel - 1, by omega⟩
        have Hk := IH k (Nat.lt_succ_self k)
        rcases hts : p.tokens with _ | ⟨op, rest⟩
        · simp only [Parser.comparison_loop, hts]
          simp [PResult.Progress, hts]
        · simp only [Parser.comparison_loop, hts]
          rw [hts] at h
          simp only [List.length_cons] at h ⊢
          split
          · refine PResult.Progress.mono (Nat.le_succ rest.length) (Nat.zero_le 0) ?_
            refine @PResult.Progress.bind _ _ _ 1 0 0 _ _
              (Hk.term { p with tokens := rest } (by simp; omega)) ?_ (by omega)
            intro a p2 _ hlen
            exact Hk.comparison_loop _ p2 (by omega)
          · simp [PResult.Progress, hts]
      term_loop := by
        intro e p h
        obtain ⟨k, rfl⟩ : ∃ k, fuel = k + 1 := ⟨fuel - 1, by omega⟩
        have Hk := IH k (Nat.lt_succ_self k)
        rcases hts : p.tokens with _ | ⟨op, rest⟩
        · simp only [Parser.term_loop, hts]
          simp [PResult.Progress, hts]
        · simp only [Parser.term_loop, hts]
          rw [hts] at h
          simp only [List.length_cons] at h ⊢
          split
          · refine PResult.Progress.mono (Nat.le_succ rest.length) (Nat.zero_le 0) ?_
            refine @PResult.Progress.bind _ _ _ 1 0 0 _ _
              (Hk.factor { p with tokens := rest } (by simp; omega)) ?_ (by omega)
            intro a p2 _ hlen
            exact Hk.term_loop _ p2 (by omega)
          · simp [PResult.Progress, hts]
      factor_loop := by
        intro e p h
        obtain ⟨k, rfl⟩ : ∃ k, fuel = k + 1 := ⟨fuel - 1, by omega⟩
        have Hk := IH k (Nat.lt_succ_self k)
        rcases hts : p.tokens with _ | ⟨op, rest⟩
        · simp only [Parser.factor_loop, hts]
          simp [PResult.Progress, hts]
        · simp only [Parser.factor_loop, hts]
          rw [hts] at h
          simp only [List.length_cons] at h ⊢
          split
          · refine PResult.Progress.mono (Nat.le_succ rest.length) (Nat.zero_le 0) ?_
            refine @PResult.Progress.bind _ _ _ 1 0 0 _ _
              (Hk.unary { p with tokens := rest } (by simp; omega)) ?_ (by omega)
            intro a p2 _ hlen
            exact Hk.factor_loop _ p2 (by omega)
          · simp [PResult.Progress, hts]
      or := by
        intro p h
        obtain ⟨k, rfl⟩ : ∃ k, fuel = k + 1 := ⟨fuel - 1, by omega⟩
        have Hk := IH k (Nat.lt_succ_self k)
        simp only [Parser.or]
        refine @PResult.Progress.bind _ _ _ 1 0 1 _ _ (Hk.and p (by omega)) ?_ (by omega)
        intro a p2 _ hlen
        exact Hk.or_loop _ p2 (by omega)
      and := by
        intro p h
        obtain ⟨k, rfl⟩ : ∃ k, fuel = k + 1 := ⟨fuel - 1, by omega⟩
        have Hk := IH k (Nat.lt_succ_self k)
        simp only [Parser.and]
        refine @PResult.Progress.bind _ _ _ 1 0 1 _ _ (Hk.equality p (by omega)) ?_ (by omega)
        intro a p2 _ hlen
        exact Hk.and_loop _ p2 (by omega)
      equality := by
        intro p h
        obtain ⟨k, rfl⟩ : ∃ k, fuel = k + 1 := ⟨fuel - 1, by omega⟩
        have Hk := IH k (Nat.lt_succ_self k)
        simp only [Parser.equality]
        refine @PResult.Progress.bind _ _ _ 1 0 1 _ _ (Hk.comparison p (by omega)) ?_ (by omega)
        intro a p2 _ hlen
        exact Hk.equality_loop _ p2 (by omega)
      comparison := by
        intro p h
        obtain ⟨k, rfl⟩ : ∃ k, fuel = k + 1 := ⟨fuel - 1, by omega⟩
        have Hk := IH k (Nat.lt_succ_self k)
        simp only [Parser.comparison]
        refine @PResult.Progress.bind _ _ _ 1 0 1 _ _ (Hk.term p (by omega)) ?_ (by omega)
        intro a p2 _ hlen
        exact Hk.comparison_loop _ p2 (by omega)
      term := by
        intro p h
        obtain ⟨k, rfl⟩ : ∃ k, fuel = k + 1 := ⟨fuel - 1, by omega⟩
        have Hk := IH k (Nat.lt_succ_self k)
        simp only [Parser.term]
        refine @PResult.Progress.bind _ _ _ 1 0 1 _ _ (Hk.factor p (by omega)) ?_ (by omega)
        intro a p2 _ hlen
        exact Hk.term_loop _ p2 (by omega)
      factor := by
        intro p h
        obtain ⟨k, rfl⟩ : ∃ k, fuel = k + 1 := ⟨fuel - 1, by omega⟩
        have Hk := IH k (Nat.lt_succ_self k)
        simp only [Parser.factor]
        refine @PResult.Progress.bind _ _ _ 1 0 1 _ _ (Hk.unary p (by omega)) ?_ (by omega)
        intro a p2 _ hlen
        exact Hk.factor_loop _ p2 (by omega)
      unary := by
        intro p h
        obtain ⟨k, rfl⟩ : ∃ k, fuel = k + 1 := ⟨fuel - 1, by omega⟩
        have Hk := IH k (Nat.lt_succ_self k)
        rcases hts : p.tokens with _ | ⟨t, rest⟩
        · simp only [Parser.unary, hts]
          simp [PResult.Progress, hts]
        · simp only [Parser.unary, hts]
          rw [hts] at h
          simp only [List.length_cons] at h ⊢
          split
          · refine PResult.Progress.mono (Nat.le_succ rest.length) (le_refl 1) ?_
            refine @PResult.Progress.bind _ _ _ 1 0 1 _ _
              (Hk.unary { p with tokens := rest } (by simp; omega)) ?_ (by omega)
            intro a p2 _ hlen
            simp [PResult.Progress]
          · refine PResult.Progress.mono (by rw [hts]; simp) (le_refl 1)
              (Hk.call p (by rw [hts]; simp only [List.length_cons]; omega))
      call := by
        intro p h
        obtain ⟨k, rfl⟩ : ∃ k, fuel = k + 1 := ⟨fuel - 1, by omega⟩
        have Hk := IH k (Nat.lt_succ_self k)
        simp only [Parser.call]
        refine @PResult.Progress.bind _ _ _ 1 0 1 _ _ (Hk.primary p (by omega)) ?_ (by omega)
        intro a p2 _ hlen
        exact Hk.call_loop a p2 (by omega)
      call_loop := by
        intro e p h
        obtain ⟨k, rfl⟩ : ∃ k, fuel = k + 1 := ⟨fuel - 1, by omega⟩
        have Hk := IH k (Nat.lt_succ_self k)
        rcases hts : p.tokens with _ | ⟨t, rest⟩
        · simp only [Parser.call_loop, hts]
          simp [PResult.Progress, hts]
        · simp only [Parser.call_loop, hts]
          rw [hts] at h
          simp only [List.length_cons] at h ⊢
          split
          · refine PResult.Progress.mono (Nat.le_succ rest.length) (Nat.zero_le 0) ?_
            refine @PResult.Progress.bind _ _ _ 1 0 0 _ _
              (Hk.finish_call e { p with tokens := rest } (by simp; omega)) ?_ (by omega)
            intro a p2 _ hlen
            exact Hk.call_loop a p2 (by omega)
          · split
            · rcases rest with _ | ⟨nm, rest2⟩
              · simp [PResult.Progress]
              · simp only []
                split
                · refine PResult.Progress.mono ?_ (le_refl 0)
                    (Hk.call_loop _ { p with tokens := rest2 } ?_)
                  · simp
                    omega
                  · simp only [List.length_cons] at h
                    simp
                    omega
                · simp [PResult.Progress]
            · simp [PResult.Progress, hts]
      assignment := by
        intro p h
        obtain ⟨k, rfl⟩ : ∃ k, fuel = k + 1 := ⟨fuel - 1, by omega⟩
        have Hk := IH k (Nat.lt_succ_self k)
        simp only [Parser.assignment]
        refine @PResult.Progress.bind _ _ _ 1 0 1 _ _ (Hk.or p (by omega)) ?_ (by omega)
        intro a p2 _ hlen
        rcases hts2 : p2.tokens with _ | ⟨eq, rest⟩
        · simp [PResult.Progress, hts2]
        · simp only [hts2]
          have hp2 : p2.tokens.length = rest.length + 1 := by rw [hts2]; simp
          split
          · refine PResult.Progress.mono (show rest.length ≤ (eq :: rest).length by simp)
              (Nat.zero_le 0) ?_
            refine @PResult.Progress.bind _ _ _ 1 0 0 _ _
              (Hk.assignment { p2 with tokens := rest } (by simp; omega)) ?_ (by omega)
            intro v p3 _ hlen3
            cases a <;> simp [PResult.Progress]
          · simp [PResult.Progress, hts2]
      expression := by
        intro p h
        obtain ⟨k, rfl⟩ : ∃ k, fuel = k + 1 := ⟨fuel - 1, by omega⟩
        have Hk := IH k (Nat.lt_succ_self k)
        simp only [Parser.expression]
        exact Hk.assignment p (by omega)
      parse_loop := by
        intro acc p h
        obtain ⟨k, rfl⟩ : ∃ k, fuel = k + 1 := ⟨fuel - 1, by omega⟩
        have Hk := IH k (Nat.lt_succ_self k)
        rcases hts : p.tokens with _ | ⟨t, rest⟩
        · simp [Parser.parse_loop, hts, PResult.Progress]
        · simp only [Parser.parse_loop, hts]
          split
          · simp [PResult.Progress, hts]
          · refine PResult.Progress.mono
              (show p.tokens.length ≤ (t :: rest).length from le_of_eq (by rw [hts]))
              (le_refl 0) ?_
            refine @PResult.Progress.bind _ _ _ 1 0 0 _ _
              (Hk.declaration p (by omega)) ?_ (by omega)
            intro st p2 _ hlen
            exact Hk.parse_loop _ p2 (by omega) }

/-- C9: whenever Parser::function returns Ok, the returned statement is the
Stmt::Function variant, and consequently the `panic!()` arm in the method loop
of Parser::class_declaration is never taken: a full parse never reaches the
panicked outcome. -/
theorem c9_function_variant_no_panic :
    (∀ (fuel : Nat) (place : String) (p p2 : Parser) (r : Stmt),
      Parser.function fuel place p = .ok r p2 → ∃ fs, r = Stmt.Function fs) ∧
    (∀ p : Parser, Parser.parse p ≠ .panicked) := by
  constructor
  · exact fun fuel place p p2 r h => function_ok fuel place p p2 r h
  · intro p hcontra
    have h := (parser_progress (Parser.parse_fuel p)).parse_loop [] p
      (by simp [Parser.parse_fuel])
    unfold Parser.parse at hcontra
    rw [hcontra] at h
    simp [PResult.Progress] at h

/-- Witness for C9 at the declaration `fun f() { }`. -/
theorem c9_function_variant_no_panic_witness :
    ∃ fs, Stmt.Function ⟨⟨.Identifier "f", "f", 1, 0⟩, [], []⟩ = Stmt.Function fs :=
  c9_function_variant_no_panic.1 100 "function"
    ⟨[⟨.Identifier "f", "f", 1, 0⟩, ⟨.LeftParen, "(", 1, 1⟩,
      ⟨.RightParen, ")", 1, 2⟩, ⟨.LeftBrace, "", 1, 3⟩, ⟨.RightBrace, "", 1, 4⟩], 0⟩
    ⟨[], 0⟩ (.Function ⟨⟨.Identifier "f", "f", 1, 0⟩, [], []⟩) rfl

/-- C10: for every finite token stream (with or without a trailing Eof),
Parser::parse terminates with either a statement list or an error: the
canonical fuel of seventeen units per token is never exhausted, because every
loop iteration and every cycle of the mutually recursive parse methods
consumes at least one token. -/
theorem c10_parse_terminates (p : Parser) :
    (∃ stmts p2, Parser.parse p = .ok stmts p2) ∨
    (∃ e, Parser.parse p = .err e) := by
  have h := (parser_progress (Parser.parse_fuel p)).parse_loop [] p
    (by simp [Parser.parse_fuel])
  unfold Parser.parse
  cases hr : Parser.parse_loop (Parser.parse_fuel p) [] p with
  | ok a q => exact Or.inl ⟨a, q, rfl⟩
  | err e => exact Or.inr ⟨e, rfl⟩
  | outOfFuel => rw [hr] at h; simp [PResult.Progress] at h
  | panicked => rw [hr] at h; simp [PResult.Progress] at h
